import Mathlib

/-!
The boss worker pool (`src/boss/worker.go`)

A shallow embedding of the `WorkerPool` of `worker.go`: its data, the five
methods `ScaleUp`, `ScaleDown`, `RunLambda`, `Status`, `Close`, and the request
forwarder `forwardTask`, followed by theorems about them.

Modelling conventions.

* A Go `*Worker` is an address into `WorkerPool.heap`, the list of the `Worker`
  structs allocated so far.  Dereferencing an address that holds no struct is
  the Go runtime panic of a nil pointer.
* The Go map `workers` is an association list; `mapSet` and `mapDelete` are the
  map assignment and the builtin `delete`.  Ranging over the map visits the
  entries in list order (Go leaves the order unspecified; the theorems about
  `Status` and `Close` do not depend on it).
* The calls into the platform interface are recorded, in order, in
  `WorkerPool.calls`.
* The methods are run by one caller at a time.  A receive on the empty queue
  then waits for ever (`Outcome.blocked`), and the loop of `ScaleDown` is run
  with a bound on its iterations (`Outcome.spinning` when the bound is used up).
-/

namespace Boss

/-! ## Data -/

/-- The Go struct `Worker`; the embedded `WorkerPlatform` interface has no method. -/
structure Worker where
  workerId : String
  workerIp : String
  isIdle : Bool
deriving DecidableEq, Repr

/-- A Go `*Worker`: the index of the struct in `WorkerPool.heap`. -/
abbrev Ptr := Nat

/-- One call into the `WorkerPoolPlatform` interface. `createInstance` is started
with `go` and not awaited; the entry records that it was started. -/
inductive PlatformCall where
  | newWorker (nextId : Int)
  | createInstance (worker : Ptr)
  | deleteInstance (worker : Ptr)
deriving DecidableEq, Repr

/-- The interface `WorkerPoolPlatform`. `NewWorker` gives the content of the new
struct; `CreateInstance` and `DeleteInstance` return nothing and are recorded in
`WorkerPool.calls`. -/
structure WorkerPoolPlatform where
  NewWorker : Int → Worker

/-- The two fields of the global `Conf` that `worker.go` reads. The declaration
of `Conf` is not in this file of the repository; it is taken as an input. -/
structure Config where
  Worker_Cap : Int
  Platform : String
deriving DecidableEq, Repr

/-- The Go struct `WorkerPool` (`nextId`, `workers`, `queue`), together with the
memory the worker pointers point into (`heap`) and the record of platform calls
(`calls`).

Modelled from the spec: the construction of the channel `queue` (its buffer
size) is not in `worker.go`; the spec describes an idle-worker blocking queue
with no depth limit, so a send never waits and the queue is a FIFO list. -/
structure WorkerPool where
  nextId : Int
  workers : List (String × Ptr)
  queue : List Ptr
  heap : List Worker
  calls : List PlatformCall
deriving DecidableEq, Repr

/-- How a call ends: it returns a value, it panics, it waits for ever on the
empty queue, or its loop is still running when the iteration bound is used up.
Each case carries the pool as the call left it. -/
inductive Outcome (α : Type) where
  | returned (value : α) (pool : WorkerPool)
  | panicked (err : String) (pool : WorkerPool)
  | blocked (pool : WorkerPool)
  | spinning (pool : WorkerPool)
deriving DecidableEq, Repr

/-- Go's `int` on a 64-bit platform: the value of an `int` expression wraps
around modulo `2^64` into `[-2^63, 2^63)`. -/
def wrapInt (x : Int) : Int := (x + 2 ^ 63) % 2 ^ 64 - 2 ^ 63

/-- The map assignment `m[key] = value`: overwrite the entry of `key` if there is
one, add an entry otherwise. -/
def mapSet : List (String × Ptr) → String → Ptr → List (String × Ptr)
  | [], key, value => [(key, value)]
  | (k, v) :: rest, key, value =>
    if k = key then (k, value) :: rest else (k, v) :: mapSet rest key value

/-- The builtin `delete(m, key)`. -/
def mapDelete (m : List (String × Ptr)) (key : String) : List (String × Ptr) :=
  m.filter (fun entry => entry.1 ≠ key)

/-- The map lookup `m[key]`. -/
def mapGet (m : List (String × Ptr)) (key : String) : Option Ptr :=
  (m.find? (fun entry => entry.1 = key)).map Prod.snd

/-- The struct a worker pointer points to, if any. -/
def WorkerPool.deref (pool : WorkerPool) (worker : Ptr) : Option Worker :=
  pool.heap[worker]?

/-- The assignment `worker.isIdle = flag` through the pointer. -/
def WorkerPool.setIdle (pool : WorkerPool) (worker : Ptr) (flag : Bool) : WorkerPool :=
  { pool with heap := pool.heap.modify (fun w => { w with isIdle := flag }) worker }

/-- The message of the Go runtime panic on a nil pointer dereference. -/
def nilDeref : String := "runtime error: invalid memory address or nil pointer dereference"

/-- Modelled from the spec: the constructor of the pool is not in `worker.go`;
the pool starts with no member, an empty idle queue and the id counter at the
value it is given. -/
def emptyPool (firstId : Int) : WorkerPool :=
  { nextId := firstId, workers := [], queue := [], heap := [], calls := [] }

/-! ## The HTTP side of `RunLambda` -/

/-- The `http.ResponseWriter` of a request: the status line once it is written,
the body written so far, and the error its `Write` returns (`none`: writes
succeed). -/
structure ResponseWriter where
  status : Option Nat
  body : String
  writeErr : Option String
deriving DecidableEq, Repr

/-- The fields of `http.Request` that `forwardTask` assigns, and the rest of the
request (method, path, headers, body), which it does not touch. -/
structure Request where
  urlScheme : String
  urlHost : String
  host : String
  requestURI : String
  payload : String
deriving DecidableEq, Repr

/-- The result of `client.Do(req)`: a transport error, or the upstream response. -/
inductive Upstream where
  | failed (err : String)
  | response (statusCode : Nat) (body : String)
deriving DecidableEq, Repr

/-- `http.StatusOK`. -/
def StatusOK : Nat := 200

/-- `http.StatusBadGateway`. -/
def StatusBadGateway : Nat := 502

/-- `w.WriteHeader(code)`: the first call fixes the status, later ones are ignored. -/
def ResponseWriter.WriteHeader (w : ResponseWriter) (code : Nat) : ResponseWriter :=
  match w.status with
  | none => { w with status := some code }
  | some _ => w

/-- `w.Write(data)`: on a writer whose writes fail, the error and nothing
written; otherwise the status line is written as 200 if it was not yet, and the
data is appended to the body. -/
def ResponseWriter.Write (w : ResponseWriter) (data : String) : ResponseWriter × Option String :=
  match w.writeErr with
  | some err => (w, some err)
  | none =>
    let w1 := w.WriteHeader StatusOK
    ({ w1 with body := w1.body ++ data }, none)

/-- `http.Error(w, msg, code)`: the status line with `code`, then `msg` and a
newline as the body (the result of the write is dropped). -/
def httpError (w : ResponseWriter) (msg : String) (code : Nat) : ResponseWriter :=
  ((w.WriteHeader code).Write (msg ++ "\n")).1

/-- `io.Copy(w, body)`: the body is written to `w`; an empty body makes no call
of `Write`. The result is dropped by `forwardTask`. -/
def ioCopy (w : ResponseWriter) (body : String) : ResponseWriter :=
  if body = "" then w else (w.Write body).1

/-- The status the caller receives: the one written, or 200 when the handler
returned without writing one. -/
def ResponseWriter.finalStatus (w : ResponseWriter) : Nat :=
  w.status.getD StatusOK

/-- The function `forwardTask`: rewrite the request to the worker's port 5000,
send it with `client.Do` (the argument `Do`), answer 502 with the error text on
a transport error, copy the upstream body otherwise. Returns the writer and the
error. -/
def forwardTask (Do : Request → Upstream) (w : ResponseWriter) (req : Request)
    (workerIp : String) : ResponseWriter × Option String :=
  let host := workerIp ++ ":" ++ toString (5000 : Nat)
  let req1 := { req with urlScheme := "http", urlHost := host, host := host, requestURI := "" }
  match Do req1 with
  | .failed err => (httpError w err StatusBadGateway, some err)
  | .response _ body => (ioCopy w body, none)

/-! ## The methods of the pool -/

/-- The method `Size`: `len(pool.workers)`. -/
def WorkerPool.Size (pool : WorkerPool) : Int := (pool.workers.length : Int)

/-- The method `ScaleUp`. -/
def WorkerPool.ScaleUp (Conf : Config) (platform : WorkerPoolPlatform) (pool : WorkerPool) :
    Outcome (Option String) :=
  if pool.Size > Conf.Worker_Cap then
    .panicked "Exceeded Maximum Number of Worker" pool
  else
    let nextId := pool.nextId
    let worker := platform.NewWorker nextId
    let ptr := pool.heap.length
    .returned none
      { nextId := wrapInt (pool.nextId + 1)
        workers := mapSet pool.workers worker.workerId ptr
        queue := pool.queue ++ [ptr]
        heap := pool.heap ++ [worker]
        calls := pool.calls ++ [.newWorker nextId, .createInstance ptr] }

/-- The loop `for worker.isIdle != true { pool.queue <- worker }` of `ScaleDown`
and the two statements after it; `fuel` bounds the number of iterations. -/
def WorkerPool.scaleDownLoop (fuel : Nat) (worker : Ptr) (pool : WorkerPool) : Outcome Unit :=
  match pool.deref worker with
  | none => .panicked nilDeref pool
  | some w =>
    if w.isIdle != true then
      match fuel with
      | 0 => .spinning pool
      | fuel + 1 =>
        WorkerPool.scaleDownLoop fuel worker { pool with queue := pool.queue ++ [worker] }
    else
      .returned ()
        { pool with
          workers := mapDelete pool.workers w.workerId
          calls := pool.calls ++ [.deleteInstance worker] }

/-- The method `ScaleDown`: receive the head of the queue, then the loop. -/
def WorkerPool.ScaleDown (fuel : Nat) (pool : WorkerPool) : Outcome Unit :=
  match pool.queue with
  | [] => .blocked pool
  | worker :: rest => WorkerPool.scaleDownLoop fuel worker { pool with queue := rest }

/-- The method `RunLambda`. The value returned is the response writer as the
handler left it. -/
def WorkerPool.RunLambda (Conf : Config) (Do : Request → Upstream) (w : ResponseWriter)
    (r : Request) (pool : WorkerPool) : Outcome ResponseWriter :=
  match pool.queue with
  | [] => .blocked pool
  | worker :: rest =>
    let pool1 := { pool with queue := rest }
    match pool1.deref worker with
    | none => .panicked nilDeref pool1
    | some wk =>
      let pool2 := pool1.setIdle worker false
      if Conf.Platform = "mock" then
        let s := "hello from " ++ wk.workerId ++ "\n"
        let w1 := w.WriteHeader StatusOK
        match w1.Write s with
        | (_, some err) => .panicked err pool2
        | (w2, none) =>
          let pool3 := pool2.setIdle worker true
          .returned w2 { pool3 with queue := pool3.queue ++ [worker] }
      else
        let w2 := (forwardTask Do w r wk.workerIp).1
        let pool3 := pool2.setIdle worker true
        .returned w2 { pool3 with queue := pool3.queue ++ [worker] }

/-- The body of the loop of `Status`, over the entries of the map not yet
visited. -/
def WorkerPool.statusLoop (pool : WorkerPool) :
    List (String × Ptr) → List (List (String × String)) → Outcome (List (List (String × String)))
  | [], acc => .returned acc pool
  | (workerId, worker) :: rest, acc =>
    match pool.deref worker with
    | none => .panicked nilDeref pool
    | some wk =>
      let output := if wk.isIdle then [(workerId, "idle")] else [(workerId, "busy")]
      WorkerPool.statusLoop pool rest (acc ++ [output])

/-- The method `Status`. -/
def WorkerPool.Status (pool : WorkerPool) : Outcome (List (List (String × String))) :=
  pool.statusLoop pool.workers []

/-- The loop of `Close`, over the entries of the map not yet visited: delete the
key, then `DeleteInstance`. -/
def WorkerPool.closeLoop : List (String × Ptr) → WorkerPool → WorkerPool
  | [], pool => pool
  | (workerId, worker) :: rest, pool =>
    WorkerPool.closeLoop rest
      { pool with
        workers := mapDelete pool.workers workerId
        calls := pool.calls ++ [.deleteInstance worker] }

/-- The method `Close`. -/
def WorkerPool.Close (pool : WorkerPool) : Outcome Unit :=
  .returned () (WorkerPool.closeLoop pool.workers pool)

/-! ## Sequences of calls -/

/-- One call of a method of the pool, with what the call is given. -/
inductive Op where
  | scaleUp
  | scaleDown
  | runLambda (Do : Request → Upstream) (w : ResponseWriter) (r : Request)
  | status
  | close

/-- The pool after one call that returns; `none` when the call does not return
(it panics, waits for ever, or spins). -/
def applyOp (fuel : Nat) (Conf : Config) (platform : WorkerPoolPlatform) (op : Op)
    (pool : WorkerPool) : Option WorkerPool :=
  match op with
  | .scaleUp =>
    match pool.ScaleUp Conf platform with
    | .returned _ pool1 => some pool1
    | _ => none
  | .scaleDown =>
    match pool.ScaleDown fuel with
    | .returned _ pool1 => some pool1
    | _ => none
  | .runLambda Do w r =>
    match pool.RunLambda Conf Do w r with
    | .returned _ pool1 => some pool1
    | _ => none
  | .status =>
    match pool.Status with
    | .returned _ pool1 => some pool1
    | _ => none
  | .close =>
    match pool.Close with
    | .returned _ pool1 => some pool1
    | _ => none

/-- The pool after a sequence of calls, each of which returns, made one after
the other; `none` as soon as one of them does not return. -/
def runOps (fuel : Nat) (Conf : Config) (platform : WorkerPoolPlatform) :
    List Op → WorkerPool → Option WorkerPool
  | [], pool => some pool
  | op :: ops, pool =>
    match applyOp fuel Conf platform op pool with
    | some pool1 => runOps fuel Conf platform ops pool1
    | none => none

/-- The call is a call of `Close`. -/
def Op.isClose : Op → Bool
  | .close => true
  | _ => false

/-- The ids of the worker structs allocated so far, in the order of allocation:
the ids of the workers that `NewWorker` has returned to `ScaleUp`. -/
def WorkerPool.ids (pool : WorkerPool) : List String :=
  pool.heap.map Worker.workerId

/-- Every pointer in the idle queue points to a worker whose idle flag is set. -/
def WorkerPool.queueIdle (pool : WorkerPool) : Prop :=
  ∀ worker ∈ pool.queue, ∃ wk, pool.deref worker = some wk ∧ wk.isIdle = true

/-- Every pointer in the idle queue points to a worker that the membership map
holds under its id. -/
def WorkerPool.queueRegistered (pool : WorkerPool) : Prop :=
  ∀ worker ∈ pool.queue, ∃ wk, pool.deref worker = some wk ∧
    (wk.workerId, worker) ∈ pool.workers

/-- The counters that were passed to `NewWorker`, in the order of the calls. -/
def newWorkerIds : List PlatformCall → List Int
  | [] => []
  | .newWorker nextId :: rest => nextId :: newWorkerIds rest
  | .createInstance _ :: rest => newWorkerIds rest
  | .deleteInstance _ :: rest => newWorkerIds rest

/-- The pool that a call left behind, however the call ended. -/
def Outcome.pool {α : Type} : Outcome α → WorkerPool
  | .returned _ pool => pool
  | .panicked _ pool => pool
  | .blocked pool => pool
  | .spinning pool => pool

/-- One call of `RunLambda` for each element of `reqs`, made one after the other.
The result is the list of the workers that the calls received from the queue,
in the order of the calls, and the pool after the last call; `none` as soon as
one of the calls does not return. -/
def runLambdas (Conf : Config) (Do : Request → Upstream) :
    List (ResponseWriter × Request) → WorkerPool → Option (List Ptr × WorkerPool)
  | [], pool => some ([], pool)
  | (w, r) :: reqs, pool =>
    match pool.RunLambda Conf Do w r with
    | .returned _ pool1 =>
      match runLambdas Conf Do reqs pool1 with
      | some (served, pool2) => some (pool.queue.take 1 ++ served, pool2)
      | none => none
    | _ => none

/-- Every entry of the membership map holds a pointer that is in the idle queue
and points to a worker whose id is the key of the entry. -/
def WorkerPool.membersQueued (pool : WorkerPool) : Prop :=
  ∀ e ∈ pool.workers, e.2 ∈ pool.queue ∧ ∃ wk, pool.deref e.2 = some wk ∧ wk.workerId = e.1

/-- The pointer is registered in the membership map. -/
def WorkerPool.isMember (pool : WorkerPool) (worker : Ptr) : Prop :=
  worker ∈ pool.workers.map Prod.snd

instance (pool : WorkerPool) (worker : Ptr) : Decidable (pool.isMember worker) := by
  unfold WorkerPool.isMember; infer_instance

/-! ## Platforms and pools used in examples -/

/-- A platform whose workers are named after the counter and start idle. -/
def idlePlatform : WorkerPoolPlatform :=
  { NewWorker := fun nextId =>
      { workerId := "worker-" ++ toString nextId, workerIp := "10.0.0.1", isIdle := true } }

/-- A platform that leaves the idle flag of a new worker at Go's zero value. -/
def zeroFlagPlatform : WorkerPoolPlatform :=
  { NewWorker := fun nextId =>
      { workerId := "worker-" ++ toString nextId, workerIp := "10.0.0.1", isIdle := false } }

/-- A configuration with the given cap, in mock mode. -/
def mockConf (cap : Int) : Config := { Worker_Cap := cap, Platform := "mock" }


/-- A platform whose first worker (counter 0) is handed out with the idle flag
unset, the others with it set. -/
def busyFirstPlatform : WorkerPoolPlatform :=
  { NewWorker := fun nextId =>
      { workerId := "worker-" ++ toString nextId, workerIp := "10.0.0.1",
        isIdle := decide (nextId ≠ 0) } }

/-- A platform that gives every worker the same id. -/
def sameIdPlatform : WorkerPoolPlatform :=
  { NewWorker := fun _ => { workerId := "worker", workerIp := "10.0.0.1", isIdle := true } }

/-- The worker struct that `idlePlatform` returns for counter `n`, with the
given flag. -/
def exampleWorker (n : Nat) (flag : Bool) : Worker :=
  { workerId := "worker-" ++ toString n, workerIp := "10.0.0.1", isIdle := flag }

/-- The pool after `ScaleUp` was called twice on `emptyPool 0` with `idlePlatform`. -/
def twoIdle : WorkerPool :=
  { nextId := 2
    workers := [("worker-0", 0), ("worker-1", 1)]
    queue := [0, 1]
    heap := [exampleWorker 0 true, exampleWorker 1 true]
    calls := [.newWorker 0, .createInstance 0, .newWorker 1, .createInstance 1] }

/-- The pool after `ScaleUp` was called three times on `emptyPool 0` with
`idlePlatform`. -/
def threeIdle : WorkerPool :=
  { nextId := 3
    workers := [("worker-0", 0), ("worker-1", 1), ("worker-2", 2)]
    queue := [0, 1, 2]
    heap := [exampleWorker 0 true, exampleWorker 1 true, exampleWorker 2 true]
    calls := [.newWorker 0, .createInstance 0, .newWorker 1, .createInstance 1,
      .newWorker 2, .createInstance 2] }

/-- The pool after `ScaleUp` was called twice on `emptyPool 0` with
`busyFirstPlatform`: the head of the queue is flagged busy, the next worker idle. -/
def busyHead : WorkerPool :=
  { twoIdle with heap := [exampleWorker 0 false, exampleWorker 1 true] }

/-- The pool `twoIdle` after a call of `ScaleDown`. -/
def twoIdleScaledDown : WorkerPool :=
  { twoIdle with
    queue := [1]
    workers := [("worker-1", 1)]
    calls := twoIdle.calls ++ [.deleteInstance 0] }

/-- The pool after `ScaleUp` was called once on `emptyPool 0` with
`zeroFlagPlatform`. -/
def oneBusy : WorkerPool :=
  { nextId := 1
    workers := [("worker-0", 0)]
    queue := [0]
    heap := [exampleWorker 0 false]
    calls := [.newWorker 0, .createInstance 0] }

/-- A response writer on which nothing was written yet and whose writes succeed. -/
def freshWriter : ResponseWriter := { status := none, body := "", writeErr := none }

/-- An inbound request. -/
def exampleRequest : Request :=
  { urlScheme := "", urlHost := "", host := "boss", requestURI := "/run", payload := "" }

/-- A network on which no worker can be reached. -/
def unreachable : Request → Upstream := fun _ => .failed "connection refused"

/-- The pool `twoIdle` after a call of `RunLambda`. -/
def twoIdleRotated : WorkerPool := { twoIdle with queue := [1, 0] }

/-- The pool after `ScaleUp` and then `Close` were called on `emptyPool 0` with
`idlePlatform`. -/
def closedAfterOne : WorkerPool :=
  { nextId := 1
    workers := []
    queue := [0]
    heap := [exampleWorker 0 true]
    calls := [.newWorker 0, .createInstance 0, .deleteInstance 0] }

/-- The pool after `ScaleUp`, `ScaleUp` and `ScaleDown` were called on
`emptyPool 0` with `sameIdPlatform`. -/
def sameIdLeftover : WorkerPool :=
  { nextId := 2
    workers := []
    queue := [1]
    heap := [sameIdPlatform.NewWorker 0, sameIdPlatform.NewWorker 1]
    calls := [.newWorker 0, .createInstance 0, .newWorker 1, .createInstance 1,
      .deleteInstance 0] }

/-- The request that `forwardTask` hands to `client.Do`: the inbound request with
scheme, host and authority rewritten to port 5000 of the worker and the request
URI cleared. -/
def rewriteRequest (req : Request) (workerIp : String) : Request :=
  { req with
    urlScheme := "http"
    urlHost := workerIp ++ ":" ++ toString (5000 : Nat)
    host := workerIp ++ ":" ++ toString (5000 : Nat)
    requestURI := "" }

/-- A configuration with the given cap, on a platform that is not the mock one. -/
def cloudConf (cap : Int) : Config := { Worker_Cap := cap, Platform := "gcp" }

/-- A network on which every worker answers 404 with the body "no such lambda". -/
def answersNotFound : Request → Upstream := fun _ => .response 404 "no such lambda"

/-- The pool with the single worker that `idlePlatform` returns for counter 0. -/
def oneIdle : WorkerPool :=
  { nextId := 1
    workers := [("worker-0", 0)]
    queue := [0]
    heap := [exampleWorker 0 true]
    calls := [.newWorker 0, .createInstance 0] }

/-- The response writer after the mock acknowledgement of worker 0 was written
on `freshWriter`. -/
def helloWriter : ResponseWriter :=
  { status := some 200, body := "hello from worker-0\n", writeErr := none }

/-- The response writer after `forwardTask` copied the answer of
`answersNotFound` on `freshWriter`. -/
def notFoundWriter : ResponseWriter :=
  { status := some 200, body := "no such lambda", writeErr := none }

/-- The response writer after `forwardTask` reported the failure of
`unreachable` on `freshWriter`. -/
def badGatewayWriter : ResponseWriter :=
  { status := some 502, body := "connection refused\n", writeErr := none }

/-- A pool with no worker whose id counter is at the largest value of a 64-bit
`int`. -/
def counterAtMax : WorkerPool := emptyPool (2 ^ 63 - 1)

/-- The worker that `idlePlatform` returns for the counter `2 ^ 63 - 1`. -/
def maxIdWorker : Worker := idlePlatform.NewWorker (2 ^ 63 - 1)

/-- The pool `counterAtMax` after one call of `ScaleUp` with `idlePlatform`. -/
def counterWrapped : WorkerPool :=
  { nextId := -2 ^ 63
    workers := [(maxIdWorker.workerId, 0)]
    queue := [0]
    heap := [maxIdWorker]
    calls := [.newWorker (2 ^ 63 - 1), .createInstance 0] }

/-- The pool `counterWrapped` after one more call of `ScaleUp` with `idlePlatform`. -/
def counterWrappedTwice : WorkerPool :=
  { nextId := -2 ^ 63 + 1
    workers := [(maxIdWorker.workerId, 0), ((idlePlatform.NewWorker (-2 ^ 63)).workerId, 1)]
    queue := [0, 1]
    heap := [maxIdWorker, idlePlatform.NewWorker (-2 ^ 63)]
    calls := [.newWorker (2 ^ 63 - 1), .createInstance 0, .newWorker (-2 ^ 63),
      .createInstance 1] }

/-- The pool after one call of `ScaleUp` on `emptyPool 0` with `sameIdPlatform`. -/
def sameIdOne : WorkerPool :=
  { nextId := 1
    workers := [("worker", 0)]
    queue := [0]
    heap := [sameIdPlatform.NewWorker 0]
    calls := [.newWorker 0, .createInstance 0] }

/-- The pool after two calls of `ScaleUp` on `emptyPool 0` with `sameIdPlatform`:
the entry of the first worker was overwritten by the second. -/
def sameIdTwo : WorkerPool :=
  { nextId := 2
    workers := [("worker", 1)]
    queue := [0, 1]
    heap := [sameIdPlatform.NewWorker 0, sameIdPlatform.NewWorker 1]
    calls := [.newWorker 0, .createInstance 0, .newWorker 1, .createInstance 1] }

/-- The pool `threeIdle` after a call of `ScaleDown` and then a call of
`RunLambda`: worker 0 is gone, worker 1 has served and is behind worker 2. -/
def threeIdleScaledDownRotated : WorkerPool :=
  { threeIdle with
    queue := [2, 1]
    workers := [("worker-1", 1), ("worker-2", 2)]
    calls := threeIdle.calls ++ [.deleteInstance 0] }

/-! ## What each method does to the pool -/

theorem deref_setIdle_same (pool : WorkerPool) (worker : Ptr) (flag : Bool) :
    (pool.setIdle worker flag).deref worker =
      (pool.deref worker).map (fun w => { w with isIdle := flag }) := by
  simp [WorkerPool.setIdle, WorkerPool.deref]

theorem deref_setIdle_other (pool : WorkerPool) (worker other : Ptr) (flag : Bool)
    (h : worker ≠ other) : (pool.setIdle worker flag).deref other = pool.deref other := by
  simp [WorkerPool.setIdle, WorkerPool.deref, List.getElem?_modify_ne _ _ h]

theorem ids_setIdle (pool : WorkerPool) (worker : Ptr) (flag : Bool) :
    (pool.setIdle worker flag).heap.map Worker.workerId = pool.heap.map Worker.workerId := by
  apply List.ext_getElem?
  intro n
  simp only [WorkerPool.setIdle, List.getElem?_map, List.getElem?_modify]
  cases pool.heap[n]? <;> by_cases h : worker = n <;> simp [h]

theorem scaleDownLoop_busy (fuel : Nat) (worker : Ptr) (wk : Worker) :
    ∀ pool : WorkerPool, pool.deref worker = some wk → wk.isIdle = false →
      WorkerPool.scaleDownLoop fuel worker pool =
        .spinning { pool with queue := pool.queue ++ List.replicate fuel worker } := by
  induction fuel with
  | zero =>
    intro pool hd hb
    simp [WorkerPool.scaleDownLoop, hd, hb]
  | succ n ih =>
    intro pool hd hb
    have hd1 : ({ pool with queue := pool.queue ++ [worker] } : WorkerPool).deref worker
        = some wk := hd
    rw [WorkerPool.scaleDownLoop]
    simp only [hd, hb]
    simp [ih _ hd1 hb, List.replicate_succ]

theorem scaleDownLoop_idle (fuel : Nat) (worker : Ptr) (wk : Worker) (pool : WorkerPool)
    (hd : pool.deref worker = some wk) (hi : wk.isIdle = true) :
    WorkerPool.scaleDownLoop fuel worker pool =
      .returned ()
        { pool with
          workers := mapDelete pool.workers wk.workerId
          calls := pool.calls ++ [.deleteInstance worker] } := by
  cases fuel <;> simp [WorkerPool.scaleDownLoop, hd, hi]


/-! ## Capacity -/

/-- C1 (the code at the failing input): with the cap at 2, two calls of `ScaleUp`
on the empty pool return and leave two members; the pool is then at the cap, and
the third call returns `nil` as well and leaves three members, one more than the
cap. -/
theorem ScaleUp_third_call_returns_at_cap_two :
    runOps 0 (mockConf 2) idlePlatform [.scaleUp, .scaleUp] (emptyPool 0) = some twoIdle ∧
    twoIdle.Size = (mockConf 2).Worker_Cap ∧
    twoIdle.ScaleUp (mockConf 2) idlePlatform = .returned none threeIdle ∧
    threeIdle.Size = 3 := by
  decide

/-- C2 (the code at the failing input): with the cap at 1, two calls of `ScaleUp`
on the empty pool both return, and the membership then has 2 entries, more than
the cap. -/
theorem Size_above_cap_after_two_ScaleUps :
    runOps 0 (mockConf 1) idlePlatform [.scaleUp, .scaleUp] (emptyPool 0) = some twoIdle ∧
    twoIdle.Size = 2 ∧ ¬ (twoIdle.Size ≤ (mockConf 1).Worker_Cap) := by
  decide

/-- C6 (counterexample): on a pool of three members with the cap at 2, `ScaleUp`
does not return an error value: it panics, leaving the pool as it was. -/
theorem ScaleUp_over_cap_panics :
    threeIdle.Size > (mockConf 2).Worker_Cap ∧
    threeIdle.ScaleUp (mockConf 2) idlePlatform =
      .panicked "Exceeded Maximum Number of Worker" threeIdle ∧
    ¬ ∃ err pool, threeIdle.ScaleUp (mockConf 2) idlePlatform = .returned (some err) pool := by
  refine ⟨by decide, by decide, ?_⟩
  rintro ⟨err, pool, h⟩
  have hp : threeIdle.ScaleUp (mockConf 2) idlePlatform =
      .panicked "Exceeded Maximum Number of Worker" threeIdle := by decide
  rw [hp] at h
  cases h

/-- C6 (amended): `ScaleUp` rejects a request exactly when the membership size is
above the cap, and the rejection is a panic carrying the error "Exceeded Maximum
Number of Worker" that leaves the pool untouched; `ScaleUp` never returns a
non-nil error, never waits and never spins. -/
theorem ScaleUp_rejects_by_panic (Conf : Config) (platform : WorkerPoolPlatform)
    (pool : WorkerPool) :
    (pool.Size > Conf.Worker_Cap ↔
      pool.ScaleUp Conf platform = .panicked "Exceeded Maximum Number of Worker" pool) ∧
    (pool.Size ≤ Conf.Worker_Cap ↔ ∃ pool1, pool.ScaleUp Conf platform = .returned none pool1) ∧
    (∀ err pool1, pool.ScaleUp Conf platform ≠ .returned (some err) pool1) ∧
    (∀ pool1, pool.ScaleUp Conf platform ≠ .blocked pool1) ∧
    (∀ pool1, pool.ScaleUp Conf platform ≠ .spinning pool1) := by
  by_cases h : pool.Size > Conf.Worker_Cap
  · have hn : ¬ pool.Size ≤ Conf.Worker_Cap := not_le.mpr h
    simp [WorkerPool.ScaleUp, h, hn]
  · have hn : pool.Size ≤ Conf.Worker_Cap := not_lt.mp h
    simp [WorkerPool.ScaleUp, h, hn]


/-! ## ScaleDown -/

/-- When the head of the queue is idle, `ScaleDown` returns for every iteration
bound, having taken the head off the queue, deleted its id from the membership
and called `DeleteInstance` on it. -/
theorem ScaleDown_idle_head (fuel : Nat) (pool : WorkerPool) (worker : Ptr) (rest : List Ptr)
    (wk : Worker) (hq : pool.queue = worker :: rest) (hd : pool.deref worker = some wk)
    (hi : wk.isIdle = true) :
    pool.ScaleDown fuel =
      .returned ()
        { pool with
          queue := rest
          workers := mapDelete pool.workers wk.workerId
          calls := pool.calls ++ [.deleteInstance worker] } := by
  have hd1 : ({ pool with queue := rest } : WorkerPool).deref worker = some wk := hd
  simp [WorkerPool.ScaleDown, hq, scaleDownLoop_idle fuel worker wk _ hd1 hi]

/-- When the head of the queue is busy, `ScaleDown` is still in its loop after
any number of iterations: the head is held, and one copy of it was sent to the
queue in each iteration. -/
theorem ScaleDown_busy_head (fuel : Nat) (pool : WorkerPool) (worker : Ptr) (rest : List Ptr)
    (wk : Worker) (hq : pool.queue = worker :: rest) (hd : pool.deref worker = some wk)
    (hb : wk.isIdle = false) :
    pool.ScaleDown fuel =
      .spinning { pool with queue := rest ++ List.replicate fuel worker } := by
  have hd1 : ({ pool with queue := rest } : WorkerPool).deref worker = some wk := hd
  simp [WorkerPool.ScaleDown, hq, scaleDownLoop_busy fuel worker wk _ hd1 hb]

/-- C7 (the code at the failing input): the pool `busyHead` is reached by two
calls of `ScaleUp`; its queue is a busy worker followed by an idle one. For
every bound on the iterations, `ScaleDown` is still in its loop: it has not
taken the idle worker, the membership and the platform calls are as before, and
the queue holds the idle worker followed by one copy of the busy worker for
each iteration. -/
theorem ScaleDown_spins_on_busy_head :
    runOps 0 (mockConf 2) busyFirstPlatform [.scaleUp, .scaleUp] (emptyPool 0) = some busyHead ∧
    busyHead.queue = [0, 1] ∧
    (busyHead.deref 0).map Worker.isIdle = some false ∧
    (busyHead.deref 1).map Worker.isIdle = some true ∧
    ∀ fuel : Nat, busyHead.ScaleDown fuel =
      .spinning { busyHead with queue := [1] ++ List.replicate fuel 0 } := by
  refine ⟨by decide, by decide, by decide, by decide, ?_⟩
  intro fuel
  exact ScaleDown_busy_head fuel busyHead 0 [1] (exampleWorker 0 false) rfl rfl rfl

/-- What a returning `ScaleDown` has done: the head of the queue was idle, and
it was taken off the queue, deleted from the membership and destroyed. -/
theorem ScaleDown_returned (fuel : Nat) (pool pool1 : WorkerPool) (v : Unit)
    (h : pool.ScaleDown fuel = .returned v pool1) :
    ∃ worker rest wk, pool.queue = worker :: rest ∧ pool.deref worker = some wk ∧
      wk.isIdle = true ∧ pool1.heap = pool.heap ∧ pool1.queue = rest ∧
      pool1.workers = mapDelete pool.workers wk.workerId ∧
      pool1.calls = pool.calls ++ [.deleteInstance worker] := by
  cases hq : pool.queue with
  | nil => simp [WorkerPool.ScaleDown, hq] at h
  | cons worker rest =>
    cases hd : pool.deref worker with
    | none =>
      have hd1 : ({ pool with queue := rest } : WorkerPool).deref worker = none := hd
      cases fuel <;> simp [WorkerPool.ScaleDown, hq, WorkerPool.scaleDownLoop, hd1] at h
    | some wk =>
      cases hi : wk.isIdle with
      | false =>
        rw [ScaleDown_busy_head fuel pool worker rest wk hq hd hi] at h
        cases h
      | true =>
        rw [ScaleDown_idle_head fuel pool worker rest wk hq hd hi] at h
        cases h
        exact ⟨worker, rest, wk, rfl, hd, hi, rfl, rfl, rfl, rfl⟩

/-- C8: if `ScaleDown` returns, the worker it took from the head of the queue
had its idle flag set when it was deleted from the membership and passed to
`DeleteInstance`: the flag is set in the pool before the call, and the call did
not change any worker struct. In particular `ScaleDown` does not return when the
head of the queue is flagged busy. -/
theorem ScaleDown_removes_only_idle (fuel : Nat) (pool pool1 : WorkerPool) (v : Unit)
    (h : pool.ScaleDown fuel = .returned v pool1) :
    ∃ worker rest wk, pool.queue = worker :: rest ∧ pool.deref worker = some wk ∧
      wk.isIdle = true ∧ pool1.heap = pool.heap ∧ pool1.queue = rest ∧
      pool1.workers = mapDelete pool.workers wk.workerId ∧
      pool1.calls = pool.calls ++ [.deleteInstance worker] :=
  ScaleDown_returned fuel pool pool1 v h

/-- C8 (witness): on `twoIdle`, `ScaleDown` returns, and the worker removed is
the idle head. -/
theorem ScaleDown_removes_only_idle_witness :
    twoIdle.ScaleDown 0 = .returned () twoIdleScaledDown ∧
    ∃ worker rest wk, twoIdle.queue = worker :: rest ∧ twoIdle.deref worker = some wk ∧
      wk.isIdle = true ∧ twoIdleScaledDown.heap = twoIdle.heap ∧
      twoIdleScaledDown.queue = rest ∧
      twoIdleScaledDown.workers = mapDelete twoIdle.workers wk.workerId ∧
      twoIdleScaledDown.calls = twoIdle.calls ++ [.deleteInstance worker] :=
  ⟨by decide, ScaleDown_removes_only_idle 0 twoIdle twoIdleScaledDown () (by decide)⟩


/-! ## Close -/

theorem closeLoop_fields (entries : List (String × Ptr)) :
    ∀ pool : WorkerPool,
      (WorkerPool.closeLoop entries pool).workers =
        pool.workers.filter (fun e => decide (e.1 ∉ entries.map Prod.fst)) ∧
      (WorkerPool.closeLoop entries pool).calls =
        pool.calls ++ entries.map (fun e => PlatformCall.deleteInstance e.2) ∧
      (WorkerPool.closeLoop entries pool).queue = pool.queue ∧
      (WorkerPool.closeLoop entries pool).heap = pool.heap ∧
      (WorkerPool.closeLoop entries pool).nextId = pool.nextId := by
  induction entries with
  | nil => intro pool; simp [WorkerPool.closeLoop]
  | cons e rest ih =>
    intro pool
    obtain ⟨workerId, worker⟩ := e
    obtain ⟨h1, h2, h3, h4, h5⟩ := ih
      { pool with
        workers := mapDelete pool.workers workerId
        calls := pool.calls ++ [.deleteInstance worker] }
    refine ⟨?_, ?_, ?_, ?_, ?_⟩
    · rw [WorkerPool.closeLoop, h1]
      simp only [mapDelete, List.filter_filter, List.map_cons, List.mem_cons, not_or]
      apply List.filter_congr
      intro x _
      by_cases hx : x.1 = workerId <;> simp [hx]
    · rw [WorkerPool.closeLoop, h2]; simp
    · rw [WorkerPool.closeLoop, h3]
    · rw [WorkerPool.closeLoop, h4]
    · rw [WorkerPool.closeLoop, h5]

theorem count_deleteInstance (entries : List (String × Ptr)) (worker : Ptr) :
    (entries.map (fun e => PlatformCall.deleteInstance e.2)).count (.deleteInstance worker) =
      (entries.map Prod.snd).count worker := by
  induction entries with
  | nil => rfl
  | cons e rest ih =>
    by_cases h : e.2 = worker
    · simp [List.count_cons, ih, h]
    · simp [List.count_cons, ih, h]

/-- C9: for every pool, `Close` returns and leaves the membership map empty; the
platform calls it makes are one `DeleteInstance` for each entry of the
membership at the time of the call, and nothing else. So the number of
`DeleteInstance` calls on a worker is the number of entries that hold it: one
for each member when every member is registered once, none for a worker that is
not a member. The idle flags are not read, and the queue, the worker structs
and the id counter are left as they were. -/
theorem Close_destroys_each_member_once (pool : WorkerPool) :
    ∃ pool1 issued, pool.Close = .returned () pool1 ∧ pool1.workers = [] ∧
      pool1.calls = pool.calls ++ issued ∧
      issued = pool.workers.map (fun e => PlatformCall.deleteInstance e.2) ∧
      (∀ worker, issued.count (.deleteInstance worker) = (pool.workers.map Prod.snd).count worker) ∧
      ((pool.workers.map Prod.snd).Nodup →
        ∀ worker, pool.isMember worker → issued.count (.deleteInstance worker) = 1) ∧
      (∀ worker, ¬ pool.isMember worker → issued.count (.deleteInstance worker) = 0) ∧
      pool1.queue = pool.queue ∧ pool1.heap = pool.heap ∧ pool1.nextId = pool.nextId := by
  obtain ⟨h1, h2, h3, h4, h5⟩ := closeLoop_fields pool.workers pool
  refine ⟨WorkerPool.closeLoop pool.workers pool, _, rfl, ?_, h2, rfl, ?_, ?_, ?_, h3, h4, h5⟩
  · rw [h1, List.filter_eq_nil_iff]
    intro e he
    simp only [decide_eq_true_eq, not_not]
    exact List.mem_map_of_mem Prod.fst he
  · intro worker
    exact count_deleteInstance pool.workers worker
  · intro hnd worker hm
    rw [count_deleteInstance]
    exact List.count_eq_one_of_mem hnd hm
  · intro worker hm
    rw [count_deleteInstance]
    exact List.count_eq_zero_of_not_mem hm


/-! ## RunLambda -/

/-- The pool that a returning `RunLambda` leaves: the head of the queue moved to
the tail, its flag cleared and set again. -/
theorem RunLambda_returned (Conf : Config) (Do : Request → Upstream) (w w1 : ResponseWriter)
    (r : Request) (pool pool1 : WorkerPool)
    (h : pool.RunLambda Conf Do w r = .returned w1 pool1) :
    ∃ worker rest wk, pool.queue = worker :: rest ∧ pool.deref worker = some wk ∧
      pool1 = { ((({ pool with queue := rest } : WorkerPool).setIdle worker false).setIdle
        worker true) with queue := rest ++ [worker] } := by
  cases hq : pool.queue with
  | nil => simp [WorkerPool.RunLambda, hq] at h
  | cons worker rest =>
    cases hd : pool.deref worker with
    | none =>
      have hd1 : ({ pool with queue := rest } : WorkerPool).deref worker = none := hd
      simp [WorkerPool.RunLambda, hq, hd1] at h
    | some wk =>
      have hd1 : ({ pool with queue := rest } : WorkerPool).deref worker = some wk := hd
      refine ⟨worker, rest, wk, rfl, hd, ?_⟩
      simp only [WorkerPool.RunLambda, hq, hd1] at h
      split at h
      · split at h
        · cases h
        · cases h
          simp [WorkerPool.setIdle]
      · cases h
        simp [WorkerPool.setIdle]

/-- When the head of the queue is a worker and the dispatch is not a mock
acknowledgement whose write fails, `RunLambda` returns. -/
theorem RunLambda_returns (Conf : Config) (Do : Request → Upstream) (w : ResponseWriter)
    (r : Request) (pool : WorkerPool) (worker : Ptr) (rest : List Ptr) (wk : Worker)
    (hq : pool.queue = worker :: rest) (hd : pool.deref worker = some wk)
    (hout : Conf.Platform = "mock" → w.writeErr = none) :
    ∃ w1 pool1, pool.RunLambda Conf Do w r = .returned w1 pool1 := by
  have hd1 : ({ pool with queue := rest } : WorkerPool).deref worker = some wk := hd
  by_cases hm : Conf.Platform = "mock"
  · have hw : w.writeErr = none := hout hm
    have hw1 : (w.WriteHeader StatusOK).writeErr = none := by
      unfold ResponseWriter.WriteHeader
      cases w.status <;> simp [hw]
    simp [WorkerPool.RunLambda, hq, hd1, hm, ResponseWriter.Write, hw1]
  · simp [WorkerPool.RunLambda, hq, hd1, hm]

/-- C5: for every pool whose queue has a worker at its head, and for each of the
three ways the dispatch can go (the mock acknowledgement is written, the forward
gets a response, the forward fails), `RunLambda` returns with the dequeued
worker flagged idle, sent to the queue once, at its tail: the queue holds the
same workers as before with the same multiplicities, and the membership is
unchanged. -/
theorem RunLambda_republishes_once (Conf : Config) (Do : Request → Upstream)
    (w : ResponseWriter) (r : Request) (pool : WorkerPool) (worker : Ptr) (rest : List Ptr)
    (wk : Worker) (hq : pool.queue = worker :: rest) (hd : pool.deref worker = some wk)
    (hout : Conf.Platform = "mock" → w.writeErr = none) :
    ∃ w1 pool1, pool.RunLambda Conf Do w r = .returned w1 pool1 ∧
      pool1.deref worker = some { wk with isIdle := true } ∧
      pool1.queue = rest ++ [worker] ∧
      pool1.queue.Perm pool.queue ∧
      (∀ other, pool1.queue.count other = pool.queue.count other) ∧
      pool1.queue.count worker = rest.count worker + 1 ∧
      pool1.workers = pool.workers ∧ pool1.calls = pool.calls := by
  obtain ⟨w1, pool1, hret⟩ := RunLambda_returns Conf Do w r pool worker rest wk hq hd hout
  obtain ⟨worker', rest', wk', hq', hd', hp⟩ := RunLambda_returned Conf Do w w1 r pool pool1 hret
  rw [hq] at hq'
  cases hq'
  rw [hd] at hd'
  cases hd'
  have hperm : (rest ++ [worker]).Perm (worker :: rest) := by
    exact (List.perm_append_comm : (rest ++ [worker]).Perm ([worker] ++ rest))
  refine ⟨w1, pool1, hret, ?_, ?_, ?_, ?_, ?_, ?_, ?_⟩
  · subst hp
    have := deref_setIdle_same ((({ pool with queue := rest } : WorkerPool).setIdle worker false))
      worker true
    have h2 := deref_setIdle_same ({ pool with queue := rest } : WorkerPool) worker false
    have hd1 : ({ pool with queue := rest } : WorkerPool).deref worker = some wk := hd
    rw [hd1] at h2
    rw [h2] at this
    simpa [WorkerPool.deref] using this
  · subst hp; rfl
  · subst hp; rw [hq]; exact hperm
  · intro other; subst hp; rw [hq]; exact hperm.count_eq other
  · subst hp; simp
  · subst hp; rfl
  · subst hp; rfl

/-- C5 (witness): on `twoIdle`, in mock mode with a writer whose writes succeed,
`RunLambda` returns and the head worker is idle and back in the queue, once. -/
theorem RunLambda_republishes_once_witness :
    ∃ w1 pool1,
      twoIdle.RunLambda (mockConf 2) unreachable freshWriter exampleRequest
        = .returned w1 pool1 ∧
      pool1.deref 0 = some { exampleWorker 0 true with isIdle := true } ∧
      pool1.queue = [1] ++ [0] ∧
      pool1.queue.Perm twoIdle.queue ∧
      (∀ other, pool1.queue.count other = twoIdle.queue.count other) ∧
      pool1.queue.count 0 = [1].count 0 + 1 ∧
      pool1.workers = twoIdle.workers ∧ pool1.calls = twoIdle.calls :=
  RunLambda_republishes_once (mockConf 2) unreachable freshWriter exampleRequest
    twoIdle 0 [1] (exampleWorker 0 true) (by decide) (by decide) (fun _ => rfl)


/-! ## Sequences of calls: what one returning call does -/

theorem statusLoop_pool (pool : WorkerPool) (entries : List (String × Ptr)) :
    ∀ (acc out : List (List (String × String))) (pool1 : WorkerPool),
      pool.statusLoop entries acc = .returned out pool1 → pool1 = pool := by
  induction entries with
  | nil =>
    intro acc out pool1 h
    simp only [WorkerPool.statusLoop] at h
    cases h
    rfl
  | cons e rest ih =>
    intro acc out pool1 h
    obtain ⟨workerId, worker⟩ := e
    cases hd : pool.deref worker with
    | none => simp [WorkerPool.statusLoop, hd] at h
    | some wk =>
      simp only [WorkerPool.statusLoop, hd] at h
      exact ih _ _ _ h

theorem applyOp_scaleUp (fuel : Nat) (Conf : Config) (platform : WorkerPoolPlatform)
    (pool pool1 : WorkerPool) (h : applyOp fuel Conf platform .scaleUp pool = some pool1) :
    pool1 =
      { nextId := wrapInt (pool.nextId + 1)
        workers := mapSet pool.workers (platform.NewWorker pool.nextId).workerId pool.heap.length
        queue := pool.queue ++ [pool.heap.length]
        heap := pool.heap ++ [platform.NewWorker pool.nextId]
        calls := pool.calls ++ [.newWorker pool.nextId, .createInstance pool.heap.length] } := by
  by_cases hc : pool.Size > Conf.Worker_Cap
  · simp [applyOp, WorkerPool.ScaleUp, hc] at h
  · simp only [applyOp, WorkerPool.ScaleUp, hc, if_false, Option.some.injEq] at h
    exact h.symm

theorem applyOp_scaleDown (fuel : Nat) (Conf : Config) (platform : WorkerPoolPlatform)
    (pool pool1 : WorkerPool) (h : applyOp fuel Conf platform .scaleDown pool = some pool1) :
    ∃ worker rest wk, pool.queue = worker :: rest ∧ pool.deref worker = some wk ∧
      wk.isIdle = true ∧ pool1.heap = pool.heap ∧ pool1.queue = rest ∧
      pool1.workers = mapDelete pool.workers wk.workerId ∧
      pool1.calls = pool.calls ++ [.deleteInstance worker] := by
  simp only [applyOp] at h
  split at h
  · rename_i v p hret
    cases h
    exact ScaleDown_returned fuel pool pool1 v hret
  · cases h

theorem applyOp_runLambda (fuel : Nat) (Conf : Config) (platform : WorkerPoolPlatform)
    (Do : Request → Upstream) (w : ResponseWriter) (r : Request)
    (pool pool1 : WorkerPool) (h : applyOp fuel Conf platform (.runLambda Do w r) pool = some pool1) :
    ∃ worker rest wk, pool.queue = worker :: rest ∧ pool.deref worker = some wk ∧
      pool1 = { ((({ pool with queue := rest } : WorkerPool).setIdle worker false).setIdle
        worker true) with queue := rest ++ [worker] } := by
  simp only [applyOp] at h
  split at h
  · rename_i v p hret
    cases h
    exact RunLambda_returned Conf Do w v r pool pool1 hret
  · cases h

theorem applyOp_status (fuel : Nat) (Conf : Config) (platform : WorkerPoolPlatform)
    (pool pool1 : WorkerPool) (h : applyOp fuel Conf platform .status pool = some pool1) :
    pool1 = pool := by
  simp only [applyOp] at h
  split at h
  · rename_i v p hret
    cases h
    exact statusLoop_pool pool pool.workers [] v pool1 hret
  · cases h

theorem applyOp_close (fuel : Nat) (Conf : Config) (platform : WorkerPoolPlatform)
    (pool pool1 : WorkerPool) (h : applyOp fuel Conf platform .close pool = some pool1) :
    pool1 = WorkerPool.closeLoop pool.workers pool := by
  simp only [applyOp, WorkerPool.Close, Option.some.injEq] at h
  exact h.symm


/-! ## The workers in the queue are idle -/

theorem deref_lt (pool : WorkerPool) (worker : Ptr) (wk : Worker)
    (h : pool.deref worker = some wk) : worker < pool.heap.length := by
  unfold WorkerPool.deref at h
  by_contra hlt
  rw [List.getElem?_eq_none (not_lt.mp hlt)] at h
  cases h

theorem deref_runLambda_head (pool : WorkerPool) (worker : Ptr) (rest : List Ptr) (wk : Worker)
    (hd : pool.deref worker = some wk) :
    ({ ((({ pool with queue := rest } : WorkerPool).setIdle worker false).setIdle
        worker true) with queue := rest ++ [worker] } : WorkerPool).deref worker =
      some { wk with isIdle := true } := by
  have h1 := deref_setIdle_same ({ pool with queue := rest } : WorkerPool) worker false
  have hd1 : ({ pool with queue := rest } : WorkerPool).deref worker = some wk := hd
  rw [hd1] at h1
  have h2 := deref_setIdle_same
    (({ pool with queue := rest } : WorkerPool).setIdle worker false) worker true
  rw [h1] at h2
  simpa [WorkerPool.deref] using h2

theorem deref_runLambda_other (pool : WorkerPool) (worker other : Ptr) (rest : List Ptr)
    (hne : worker ≠ other) :
    ({ ((({ pool with queue := rest } : WorkerPool).setIdle worker false).setIdle
        worker true) with queue := rest ++ [worker] } : WorkerPool).deref other =
      pool.deref other := by
  have h1 := deref_setIdle_other ({ pool with queue := rest } : WorkerPool) worker other false hne
  have h2 := deref_setIdle_other
    (({ pool with queue := rest } : WorkerPool).setIdle worker false) worker other true hne
  rw [h1] at h2
  simpa [WorkerPool.deref] using h2

theorem queueIdle_applyOp (fuel : Nat) (Conf : Config) (platform : WorkerPoolPlatform)
    (hnew : ∀ n, (platform.NewWorker n).isIdle = true) (op : Op) (pool pool1 : WorkerPool)
    (hinv : pool.queueIdle) (h : applyOp fuel Conf platform op pool = some pool1) :
    pool1.queueIdle := by
  cases op with
  | scaleUp =>
    have hp := applyOp_scaleUp fuel Conf platform pool pool1 h
    subst hp
    intro worker hw
    simp only [List.mem_append, List.mem_singleton] at hw
    rcases hw with hw | hw
    · obtain ⟨wk, hd, hi⟩ := hinv worker hw
      refine ⟨wk, ?_, hi⟩
      have hlt := deref_lt pool worker wk hd
      simp only [WorkerPool.deref] at hd ⊢
      rw [List.getElem?_append_left hlt]
      exact hd
    · subst hw
      refine ⟨platform.NewWorker pool.nextId, ?_, hnew _⟩
      simp [WorkerPool.deref]
  | scaleDown =>
    obtain ⟨worker, rest, wk, hq, _, _, hheap, hq1, _, _⟩ :=
      applyOp_scaleDown fuel Conf platform pool pool1 h
    intro other ho
    rw [hq1] at ho
    obtain ⟨wk1, hd1, hi1⟩ := hinv other (by rw [hq]; exact List.mem_cons_of_mem _ ho)
    refine ⟨wk1, ?_, hi1⟩
    simp only [WorkerPool.deref] at hd1 ⊢
    rw [hheap]
    exact hd1
  | runLambda Do w r =>
    obtain ⟨worker, rest, wk, hq, hd, hp⟩ := applyOp_runLambda fuel Conf platform Do w r pool pool1 h
    subst hp
    intro other ho
    by_cases hne : worker = other
    · subst hne
      exact ⟨_, deref_runLambda_head pool worker rest wk hd, rfl⟩
    · have ho1 : other ∈ rest := by
        simp only [List.mem_append, List.mem_singleton] at ho
        rcases ho with ho | ho
        · exact ho
        · exact absurd ho.symm hne
      obtain ⟨wk1, hd1, hi1⟩ := hinv other (by rw [hq]; exact List.mem_cons_of_mem _ ho1)
      exact ⟨wk1, by rw [deref_runLambda_other pool worker other rest hne]; exact hd1, hi1⟩
  | status =>
    have hp := applyOp_status fuel Conf platform pool pool1 h
    subst hp
    exact hinv
  | close =>
    have hp := applyOp_close fuel Conf platform pool pool1 h
    subst hp
    obtain ⟨_, _, h3, h4, _⟩ := closeLoop_fields pool.workers pool
    intro other ho
    rw [h3] at ho
    obtain ⟨wk1, hd1, hi1⟩ := hinv other ho
    refine ⟨wk1, ?_, hi1⟩
    simp only [WorkerPool.deref] at hd1 ⊢
    rw [h4]
    exact hd1

theorem queueIdle_runOps (fuel : Nat) (Conf : Config) (platform : WorkerPoolPlatform)
    (hnew : ∀ n, (platform.NewWorker n).isIdle = true) (ops : List Op) :
    ∀ pool pool1 : WorkerPool, pool.queueIdle →
      runOps fuel Conf platform ops pool = some pool1 → pool1.queueIdle := by
  induction ops with
  | nil =>
    intro pool pool1 hinv h
    simp only [runOps, Option.some.injEq] at h
    subst h
    exact hinv
  | cons op ops ih =>
    intro pool pool1 hinv h
    simp only [runOps] at h
    cases hop : applyOp fuel Conf platform op pool with
    | none => simp [hop] at h
    | some pool2 =>
      simp only [hop] at h
      exact ih pool2 pool1 (queueIdle_applyOp fuel Conf platform hnew op pool pool2 hinv hop) h

/-- C10 (the code at the failing input): with a platform whose `NewWorker` leaves
the idle flag at Go's zero value, one call of `ScaleUp` on the empty pool
returns, and the worker it has sent to the queue is flagged busy: `ScaleUp`
sends the worker without assigning `isIdle`, where `RunLambda` assigns
`isIdle = true` before its send, so the queue, commented "this queue will only
hold idle workers", holds a busy worker. -/
theorem ScaleUp_publishes_busy_worker :
    runOps 0 (mockConf 2) zeroFlagPlatform [.scaleUp] (emptyPool 0) = some oneBusy ∧
    0 ∈ oneBusy.queue ∧ oneBusy.deref 0 = some (exampleWorker 0 false) ∧
    (exampleWorker 0 false).isIdle = false ∧ ¬ oneBusy.queueIdle := by
  refine ⟨by decide, by decide, by decide, by decide, ?_⟩
  intro hall
  obtain ⟨wk, hd, hi⟩ := hall 0 (by decide)
  have hd0 : oneBusy.deref 0 = some (exampleWorker 0 false) := by decide
  rw [hd0] at hd
  cases hd
  exact absurd hi (by decide)

/-- The send in `ScaleUp` is the only place where a busy worker can enter the
queue: when every worker that `NewWorker` returns happens to have the idle flag
set, in every state reached from the empty pool by a sequence of returning
`ScaleUp`, `ScaleDown`, `RunLambda`, `Status` and `Close` calls, every pointer in
the idle queue points to a worker whose idle flag is set. -/
theorem queue_workers_idle (fuel : Nat) (Conf : Config) (platform : WorkerPoolPlatform)
    (firstId : Int) (ops : List Op) (pool : WorkerPool)
    (hnew : ∀ n, (platform.NewWorker n).isIdle = true)
    (hrun : runOps fuel Conf platform ops (emptyPool firstId) = some pool) :
    ∀ worker ∈ pool.queue, ∃ wk, pool.deref worker = some wk ∧ wk.isIdle = true := by
  have h0 : (emptyPool firstId).queueIdle := by
    intro worker hw
    simp [emptyPool] at hw
  exact queueIdle_runOps fuel Conf platform hnew ops (emptyPool firstId) pool h0 hrun

/-- With `idlePlatform`, after two calls of `ScaleUp` and a call of `RunLambda`,
the workers in the queue are idle. -/
theorem queue_workers_idle_witness :
    (∀ n, (idlePlatform.NewWorker n).isIdle = true) ∧
    runOps 0 (mockConf 2) idlePlatform
      [.scaleUp, .scaleUp, .runLambda unreachable freshWriter exampleRequest]
      (emptyPool 0) = some twoIdleRotated ∧
    ∀ worker ∈ twoIdleRotated.queue,
      ∃ wk, twoIdleRotated.deref worker = some wk ∧ wk.isIdle = true :=
  ⟨fun _ => rfl, by decide,
    queue_workers_idle 0 (mockConf 2) idlePlatform 0
      [.scaleUp, .scaleUp, .runLambda unreachable freshWriter exampleRequest]
      twoIdleRotated (fun _ => rfl) (by decide)⟩


/-! ## The workers in the queue are members -/

theorem mem_mapSet_self (m : List (String × Ptr)) (key : String) (value : Ptr) :
    (key, value) ∈ mapSet m key value := by
  induction m with
  | nil => simp [mapSet]
  | cons e rest ih =>
    obtain ⟨k, v⟩ := e
    by_cases h : k = key
    · simp [mapSet, h]
    · simp [mapSet, h, ih]

theorem mem_mapSet_of_ne (m : List (String × Ptr)) (key : String) (value : Ptr)
    (k : String) (v : Ptr) (hm : (k, v) ∈ m) (hne : k ≠ key) : (k, v) ∈ mapSet m key value := by
  induction m with
  | nil => cases hm
  | cons e rest ih =>
    obtain ⟨k1, v1⟩ := e
    by_cases h : k1 = key
    · simp only [mapSet, h, if_true, List.mem_cons]
      simp only [List.mem_cons, Prod.mk.injEq] at hm
      rcases hm with ⟨hk, _⟩ | hm
      · exact absurd (hk.trans h) hne
      · exact Or.inr hm
    · simp only [mapSet, h, if_false, List.mem_cons]
      simp only [List.mem_cons] at hm
      rcases hm with hm | hm
      · exact Or.inl hm
      · exact Or.inr (ih hm)

theorem mem_mapDelete_of_ne (m : List (String × Ptr)) (key : String)
    (k : String) (v : Ptr) (hm : (k, v) ∈ m) (hne : k ≠ key) : (k, v) ∈ mapDelete m key := by
  simp [mapDelete, hm, hne]

theorem ids_getElem? (pool : WorkerPool) (worker : Ptr) (wk : Worker)
    (h : pool.deref worker = some wk) : pool.ids[worker]? = some wk.workerId := by
  simp only [WorkerPool.deref] at h
  simp [WorkerPool.ids, h]

theorem ids_distinct (pool : WorkerPool) (hnd : pool.ids.Nodup) (a b : Ptr) (wa wb : Worker)
    (ha : pool.deref a = some wa) (hb : pool.deref b = some wb) (hne : a ≠ b) :
    wa.workerId ≠ wb.workerId := by
  intro heq
  obtain ⟨hla, hea⟩ := List.getElem?_eq_some.1 (ids_getElem? pool a wa ha)
  obtain ⟨hlb, heb⟩ := List.getElem?_eq_some.1 (ids_getElem? pool b wb hb)
  have : pool.ids[a] = pool.ids[b] := by rw [hea, heb, heq]
  exact hne ((hnd.getElem_inj_iff).1 this)

theorem ids_applyOp (fuel : Nat) (Conf : Config) (platform : WorkerPoolPlatform) (op : Op)
    (pool pool1 : WorkerPool) (h : applyOp fuel Conf platform op pool = some pool1) :
    ∃ more, pool1.ids = pool.ids ++ more := by
  cases op with
  | scaleUp =>
    have hp := applyOp_scaleUp fuel Conf platform pool pool1 h
    subst hp
    exact ⟨[(platform.NewWorker pool.nextId).workerId], by simp [WorkerPool.ids]⟩
  | scaleDown =>
    obtain ⟨_, _, _, _, _, _, hheap, _, _, _⟩ := applyOp_scaleDown fuel Conf platform pool pool1 h
    exact ⟨[], by simp [WorkerPool.ids, hheap]⟩
  | runLambda Do w r =>
    obtain ⟨worker, rest, wk, _, _, hp⟩ := applyOp_runLambda fuel Conf platform Do w r pool pool1 h
    subst hp
    refine ⟨[], ?_⟩
    have h1 := ids_setIdle ({ pool with queue := rest } : WorkerPool) worker false
    have h2 := ids_setIdle (({ pool with queue := rest } : WorkerPool).setIdle worker false)
      worker true
    rw [h1] at h2
    simpa [WorkerPool.ids] using h2
  | status =>
    have hp := applyOp_status fuel Conf platform pool pool1 h
    subst hp
    exact ⟨[], by simp⟩
  | close =>
    have hp := applyOp_close fuel Conf platform pool pool1 h
    subst hp
    obtain ⟨_, _, _, h4, _⟩ := closeLoop_fields pool.workers pool
    exact ⟨[], by simp [WorkerPool.ids, h4]⟩

theorem ids_runOps (fuel : Nat) (Conf : Config) (platform : WorkerPoolPlatform) (ops : List Op) :
    ∀ pool pool1 : WorkerPool, runOps fuel Conf platform ops pool = some pool1 →
      ∃ more, pool1.ids = pool.ids ++ more := by
  induction ops with
  | nil =>
    intro pool pool1 h
    simp only [runOps, Option.some.injEq] at h
    subst h
    exact ⟨[], by simp⟩
  | cons op ops ih =>
    intro pool pool1 h
    simp only [runOps] at h
    cases hop : applyOp fuel Conf platform op pool with
    | none => simp [hop] at h
    | some pool2 =>
      simp only [hop] at h
      obtain ⟨m1, h1⟩ := ids_applyOp fuel Conf platform op pool pool2 hop
      obtain ⟨m2, h2⟩ := ih pool2 pool1 h
      exact ⟨m1 ++ m2, by rw [h2, h1, List.append_assoc]⟩


theorem registered_applyOp (fuel : Nat) (Conf : Config) (platform : WorkerPoolPlatform)
    (op : Op) (hop : op.isClose = false) (pool pool1 : WorkerPool)
    (hids : pool1.ids.Nodup) (hnd : pool.queue.Nodup) (hinv : pool.queueRegistered)
    (h : applyOp fuel Conf platform op pool = some pool1) :
    pool1.queue.Nodup ∧ pool1.queueRegistered := by
  cases op with
  | scaleUp =>
    have hp := applyOp_scaleUp fuel Conf platform pool pool1 h
    subst hp
    have hids1 : (pool.ids ++ [(platform.NewWorker pool.nextId).workerId]).Nodup := by
      simpa [WorkerPool.ids] using hids
    have hfresh : (platform.NewWorker pool.nextId).workerId ∉ pool.ids := by
      intro hmem
      exact (List.nodup_append.1 hids1).2.2 hmem (List.mem_singleton_self _)
    constructor
    · show (pool.queue ++ [pool.heap.length]).Nodup
      rw [List.nodup_append]
      refine ⟨hnd, List.nodup_singleton _, ?_⟩
      intro a ha hb
      rw [List.mem_singleton] at hb
      obtain ⟨wk, hd, _⟩ := hinv a ha
      have hlt := deref_lt pool a wk hd
      rw [hb] at hlt
      exact lt_irrefl _ hlt
    · intro worker hw
      simp only [List.mem_append, List.mem_singleton] at hw
      rcases hw with hw | hw
      · obtain ⟨wk, hd, hm⟩ := hinv worker hw
        have hlt := deref_lt pool worker wk hd
        refine ⟨wk, ?_, ?_⟩
        · simp only [WorkerPool.deref] at hd ⊢
          rw [List.getElem?_append_left hlt]
          exact hd
        · apply mem_mapSet_of_ne _ _ _ _ _ hm
          intro heq
          apply hfresh
          rw [← heq]
          exact List.mem_iff_getElem?.2 ⟨worker, ids_getElem? pool worker wk hd⟩
      · subst hw
        refine ⟨platform.NewWorker pool.nextId, ?_, mem_mapSet_self _ _ _⟩
        simp [WorkerPool.deref]
  | scaleDown =>
    obtain ⟨worker, rest, wk, hq, hd, _, hheap, hq1, hw1, _⟩ :=
      applyOp_scaleDown fuel Conf platform pool pool1 h
    have hids0 : pool.ids.Nodup := by
      simpa [WorkerPool.ids, hheap] using hids
    rw [hq] at hnd
    have hnotin : worker ∉ rest := (List.nodup_cons.1 hnd).1
    constructor
    · rw [hq1]
      exact (List.nodup_cons.1 hnd).2
    · intro other ho
      rw [hq1] at ho
      have hne : other ≠ worker := fun e => hnotin (e ▸ ho)
      obtain ⟨wo, hdo, hmo⟩ := hinv other (by rw [hq]; exact List.mem_cons_of_mem _ ho)
      refine ⟨wo, ?_, ?_⟩
      · simp only [WorkerPool.deref] at hdo ⊢
        rw [hheap]
        exact hdo
      · rw [hw1]
        exact mem_mapDelete_of_ne _ _ _ _ hmo (ids_distinct pool hids0 other worker wo wk hdo hd hne)
  | runLambda Do w r =>
    obtain ⟨worker, rest, wk, hq, hd, hp⟩ := applyOp_runLambda fuel Conf platform Do w r pool pool1 h
    subst hp
    rw [hq] at hnd
    constructor
    · show (rest ++ [worker]).Nodup
      exact (List.perm_append_comm : (rest ++ [worker]).Perm ([worker] ++ rest)).nodup_iff.2 hnd
    · intro other ho
      by_cases hne : worker = other
      · subst hne
        obtain ⟨wk1, hd1, hm1⟩ := hinv worker (by rw [hq]; exact List.mem_cons_self _ _)
        rw [hd] at hd1
        cases hd1
        exact ⟨_, deref_runLambda_head pool worker rest wk hd, hm1⟩
      · have ho1 : other ∈ rest := by
          simp only [List.mem_append, List.mem_singleton] at ho
          rcases ho with ho | ho
          · exact ho
          · exact absurd ho.symm hne
        obtain ⟨wk1, hd1, hm1⟩ := hinv other (by rw [hq]; exact List.mem_cons_of_mem _ ho1)
        exact ⟨wk1, by rw [deref_runLambda_other pool worker other rest hne]; exact hd1, hm1⟩
  | status =>
    have hp := applyOp_status fuel Conf platform pool pool1 h
    subst hp
    exact ⟨hnd, hinv⟩
  | close => cases hop

theorem registered_runOps (fuel : Nat) (Conf : Config) (platform : WorkerPoolPlatform)
    (ops : List Op) :
    ∀ pool pool1 : WorkerPool, (∀ op ∈ ops, op.isClose = false) → pool1.ids.Nodup →
      pool.queue.Nodup → pool.queueRegistered →
      runOps fuel Conf platform ops pool = some pool1 →
      pool1.queue.Nodup ∧ pool1.queueRegistered := by
  induction ops with
  | nil =>
    intro pool pool1 _ _ hnd hinv h
    simp only [runOps, Option.some.injEq] at h
    subst h
    exact ⟨hnd, hinv⟩
  | cons op ops ih =>
    intro pool pool1 hops hids hnd hinv h
    simp only [runOps] at h
    cases hop : applyOp fuel Conf platform op pool with
    | none => simp [hop] at h
    | some pool2 =>
      simp only [hop] at h
      obtain ⟨more, hmore⟩ := ids_runOps fuel Conf platform ops pool2 pool1 h
      have hids2 : pool2.ids.Nodup := by
        rw [hmore] at hids
        exact hids.of_append_left
      obtain ⟨hnd2, hinv2⟩ := registered_applyOp fuel Conf platform op
        (hops op (List.mem_cons_self _ _)) pool pool2 hids2 hnd hinv hop
      exact ih pool2 pool1 (fun o ho => hops o (List.mem_cons_of_mem _ ho)) hids hnd2 hinv2 h

/-- C4 (counterexample): two reachable states in which a worker in the idle
queue is not in the membership map. After `ScaleUp` and `Close`, the membership
map is empty and the queue still holds the worker. With a platform that gives
two workers the same id, after `ScaleUp`, `ScaleUp`, `ScaleDown` the second
worker is in the queue and the membership map is empty. -/
theorem queue_worker_not_member :
    (runOps 0 (mockConf 2) idlePlatform [.scaleUp, .close] (emptyPool 0) = some closedAfterOne ∧
      0 ∈ closedAfterOne.queue ∧ ¬ closedAfterOne.isMember 0) ∧
    (runOps 0 (mockConf 2) sameIdPlatform [.scaleUp, .scaleUp, .scaleDown] (emptyPool 0)
        = some sameIdLeftover ∧
      1 ∈ sameIdLeftover.queue ∧ ¬ sameIdLeftover.isMember 1) := by
  decide

/-- C4 (amended): when the workers that `NewWorker` has returned have pairwise
distinct ids, in every state reached from the empty pool by a sequence of
returning `ScaleUp`, `ScaleDown`, `RunLambda` and `Status` calls (no `Close`),
every pointer in the idle queue points to a worker that the membership map holds
under its id. -/
theorem queue_workers_registered (fuel : Nat) (Conf : Config) (platform : WorkerPoolPlatform)
    (firstId : Int) (ops : List Op) (pool : WorkerPool)
    (hops : ∀ op ∈ ops, op.isClose = false) (hids : pool.ids.Nodup)
    (hrun : runOps fuel Conf platform ops (emptyPool firstId) = some pool) :
    ∀ worker ∈ pool.queue, pool.isMember worker ∧
      ∃ wk, pool.deref worker = some wk ∧ (wk.workerId, worker) ∈ pool.workers := by
  have h0 : (emptyPool firstId).queueRegistered := by
    intro worker hw
    simp [emptyPool] at hw
  have hq0 : (emptyPool firstId).queue.Nodup := by simp [emptyPool]
  obtain ⟨_, hreg⟩ := registered_runOps fuel Conf platform ops (emptyPool firstId) pool
    hops hids hq0 h0 hrun
  intro worker hw
  obtain ⟨wk, hd, hm⟩ := hreg worker hw
  refine ⟨?_, wk, hd, hm⟩
  exact List.mem_map_of_mem Prod.snd hm

/-- C4 (witness): with `idlePlatform`, after two calls of `ScaleUp` and a call of
`RunLambda`, both workers in the queue are members. -/
theorem queue_workers_registered_witness :
    (∀ op ∈ ([.scaleUp, .scaleUp, .runLambda unreachable freshWriter exampleRequest] : List Op),
      op.isClose = false) ∧
    twoIdleRotated.ids.Nodup ∧
    runOps 0 (mockConf 2) idlePlatform
      [.scaleUp, .scaleUp, .runLambda unreachable freshWriter exampleRequest]
      (emptyPool 0) = some twoIdleRotated ∧
    ∀ worker ∈ twoIdleRotated.queue, twoIdleRotated.isMember worker ∧
      ∃ wk, twoIdleRotated.deref worker = some wk ∧
        (wk.workerId, worker) ∈ twoIdleRotated.workers :=
  ⟨by simp [Op.isClose], by decide, by decide,
    queue_workers_registered 0 (mockConf 2) idlePlatform 0
      [.scaleUp, .scaleUp, .runLambda unreachable freshWriter exampleRequest]
      twoIdleRotated (by simp [Op.isClose]) (by decide) (by decide)⟩


/-! ## A rejected ScaleUp -/

/-- C18: whenever the membership size is above the cap, `ScaleUp` panics and the
pool it leaves is the pool it was given: the id counter, the membership map, the
idle queue and the worker structs are as before, and the record of platform
calls is as before, so neither `NewWorker` nor `CreateInstance` was called. -/
theorem ScaleUp_rejected_changes_nothing (Conf : Config) (platform : WorkerPoolPlatform)
    (pool : WorkerPool) (h : pool.Size > Conf.Worker_Cap) :
    ∃ err pool1, pool.ScaleUp Conf platform = .panicked err pool1 ∧
      pool1.nextId = pool.nextId ∧ pool1.workers = pool.workers ∧
      pool1.queue = pool.queue ∧ pool1.heap = pool.heap ∧ pool1.calls = pool.calls := by
  refine ⟨"Exceeded Maximum Number of Worker", pool, ?_, rfl, rfl, rfl, rfl, rfl⟩
  simp [WorkerPool.ScaleUp, h]

/-- C18 (witness): on `threeIdle` with the cap at 2, `ScaleUp` is rejected and the
pool is left as it was. -/
theorem ScaleUp_rejected_changes_nothing_witness :
    threeIdle.Size > (mockConf 2).Worker_Cap ∧
    ∃ err pool1, threeIdle.ScaleUp (mockConf 2) idlePlatform = .panicked err pool1 ∧
      pool1.nextId = threeIdle.nextId ∧ pool1.workers = threeIdle.workers ∧
      pool1.queue = threeIdle.queue ∧ pool1.heap = threeIdle.heap ∧
      pool1.calls = threeIdle.calls :=
  ⟨by decide, ScaleUp_rejected_changes_nothing (mockConf 2) idlePlatform threeIdle (by decide)⟩

/-! ## The response of RunLambda -/

theorem forwardTask_eq (Do : Request → Upstream) (w : ResponseWriter) (req : Request)
    (workerIp : String) :
    forwardTask Do w req workerIp =
      match Do (rewriteRequest req workerIp) with
      | .failed err => (httpError w err StatusBadGateway, some err)
      | .response _ body => (ioCopy w body, none) := rfl

/-- What `RunLambda` returns when it is not in mock mode and the head of the
queue is a worker: the writer as `forwardTask` left it, and the pool with the
head moved to the tail. -/
theorem RunLambda_forward (Conf : Config) (Do : Request → Upstream) (w : ResponseWriter)
    (r : Request) (pool : WorkerPool) (worker : Ptr) (rest : List Ptr) (wk : Worker)
    (hmode : Conf.Platform ≠ "mock") (hq : pool.queue = worker :: rest)
    (hd : pool.deref worker = some wk) :
    pool.RunLambda Conf Do w r =
      .returned (forwardTask Do w r wk.workerIp).1
        { ((({ pool with queue := rest } : WorkerPool).setIdle worker false).setIdle
          worker true) with queue := rest ++ [worker] } := by
  have hd1 : ({ pool with queue := rest } : WorkerPool).deref worker = some wk := hd
  simp [WorkerPool.RunLambda, hq, hd1, hmode, WorkerPool.setIdle]

/-- What `RunLambda` returns in mock mode when the head of the queue is a worker
and the writes of the response writer succeed. -/
theorem RunLambda_mock (Conf : Config) (Do : Request → Upstream) (w : ResponseWriter)
    (r : Request) (pool : WorkerPool) (worker : Ptr) (rest : List Ptr) (wk : Worker)
    (hmode : Conf.Platform = "mock") (hq : pool.queue = worker :: rest)
    (hd : pool.deref worker = some wk) (hw : w.writeErr = none) :
    pool.RunLambda Conf Do w r =
      .returned
        { (w.WriteHeader StatusOK) with
          body := (w.WriteHeader StatusOK).body ++ ("hello from " ++ wk.workerId ++ "\n") }
        { ((({ pool with queue := rest } : WorkerPool).setIdle worker false).setIdle
          worker true) with queue := rest ++ [worker] } := by
  have hd1 : ({ pool with queue := rest } : WorkerPool).deref worker = some wk := hd
  have hw1 : (w.WriteHeader StatusOK).writeErr = none := by
    unfold ResponseWriter.WriteHeader
    cases w.status <;> simp [hw]
  have hidem : (w.WriteHeader StatusOK).WriteHeader StatusOK = w.WriteHeader StatusOK := by
    unfold ResponseWriter.WriteHeader
    cases h : w.status <;> simp [h]
  simp [WorkerPool.RunLambda, hq, hd1, hmode, ResponseWriter.Write, hw1, hidem,
    WorkerPool.setIdle]


/-- C14: in mock mode, for every pool whose queue has a worker at its head,
`RunLambda` on a fresh response writer whose writes succeed returns with the
status 200 written and with the body "hello from <workerId>\n" for the id of the
worker at the head of the queue; when that worker is the only one in the pool
it is the one named. -/
theorem RunLambda_mock_names_head (Conf : Config) (Do : Request → Upstream)
    (w : ResponseWriter) (r : Request) (pool : WorkerPool) (worker : Ptr) (rest : List Ptr)
    (wk : Worker) (hmode : Conf.Platform = "mock") (hq : pool.queue = worker :: rest)
    (hd : pool.deref worker = some wk) (hw : w.writeErr = none) (hs : w.status = none) :
    ∃ w1 pool1, pool.RunLambda Conf Do w r = .returned w1 pool1 ∧
      w1.status = some StatusOK ∧ w1.finalStatus = 200 ∧
      w1.body = w.body ++ ("hello from " ++ wk.workerId ++ "\n") := by
  refine ⟨_, _, RunLambda_mock Conf Do w r pool worker rest wk hmode hq hd hw, ?_, ?_, ?_⟩
  · simp [ResponseWriter.WriteHeader, hs]
  · simp [ResponseWriter.WriteHeader, ResponseWriter.finalStatus, hs, StatusOK]
  · simp [ResponseWriter.WriteHeader, hs]

/-- C14 (witness): with the single worker `worker-0` in the pool, `RunLambda` in
mock mode answers 200 with the body "hello from worker-0\n". -/
theorem RunLambda_mock_names_head_witness :
    oneIdle.RunLambda (mockConf 2) unreachable freshWriter exampleRequest =
      .returned helloWriter oneIdle ∧
    ∃ w1 pool1, oneIdle.RunLambda (mockConf 2) unreachable freshWriter exampleRequest =
        .returned w1 pool1 ∧
      w1.status = some StatusOK ∧ w1.finalStatus = 200 ∧
      w1.body = freshWriter.body ++ ("hello from " ++ (exampleWorker 0 true).workerId ++ "\n") :=
  ⟨by decide,
    RunLambda_mock_names_head (mockConf 2) unreachable freshWriter exampleRequest oneIdle 0 []
      (exampleWorker 0 true) rfl rfl rfl rfl rfl⟩

/-- C12 (counterexample): outside mock mode, with one worker whose answer to the
forwarded request is 404 with the body "no such lambda", `RunLambda` relays the
body, and the status the caller sees is 200, not 404. -/
theorem forward_does_not_relay_status :
    answersNotFound (rewriteRequest exampleRequest "10.0.0.1") =
      .response 404 "no such lambda" ∧
    oneIdle.RunLambda (cloudConf 2) answersNotFound freshWriter exampleRequest =
      .returned notFoundWriter oneIdle ∧
    notFoundWriter.finalStatus = 200 ∧ notFoundWriter.finalStatus ≠ 404 := by
  decide

/-- C12 (amended): outside mock mode, when the forward to the worker at the head
of the queue gets a response, `RunLambda` returns with the upstream body
appended unaltered to the body of a writer whose writes succeed; the upstream
status is not written: the status the caller sees is the one the writer had, 200
on a fresh writer, whatever the upstream status. -/
theorem RunLambda_relays_body_only (Conf : Config) (Do : Request → Upstream)
    (w : ResponseWriter) (r : Request) (pool : WorkerPool) (worker : Ptr) (rest : List Ptr)
    (wk : Worker) (code : Nat) (body : String)
    (hmode : Conf.Platform ≠ "mock") (hq : pool.queue = worker :: rest)
    (hd : pool.deref worker = some wk) (hw : w.writeErr = none)
    (hresp : Do (rewriteRequest r wk.workerIp) = .response code body) :
    ∃ w1 pool1, pool.RunLambda Conf Do w r = .returned w1 pool1 ∧
      w1.body = w.body ++ body ∧ w1.finalStatus = w.finalStatus ∧
      (w.status = none → w1.finalStatus = 200) := by
  refine ⟨_, _, RunLambda_forward Conf Do w r pool worker rest wk hmode hq hd, ?_⟩
  rw [forwardTask_eq, hresp]
  by_cases hb : body = ""
  · subst hb
    refine ⟨by simp [ioCopy], by simp [ioCopy], ?_⟩
    intro hs
    simp [ioCopy, ResponseWriter.finalStatus, hs, StatusOK]
  · cases hs : w.status with
    | none =>
      simp [ioCopy, hb, ResponseWriter.Write, hw, ResponseWriter.WriteHeader, hs,
        ResponseWriter.finalStatus, StatusOK]
    | some c =>
      simp [ioCopy, hb, ResponseWriter.Write, hw, ResponseWriter.WriteHeader, hs,
        ResponseWriter.finalStatus]

/-- C12 (witness): the worker of `oneIdle` answers 404 "no such lambda"; the
caller gets the body and the status 200. -/
theorem RunLambda_relays_body_only_witness :
    ∃ w1 pool1, oneIdle.RunLambda (cloudConf 2) answersNotFound freshWriter exampleRequest =
        .returned w1 pool1 ∧
      w1.body = freshWriter.body ++ "no such lambda" ∧
      w1.finalStatus = freshWriter.finalStatus ∧
      (freshWriter.status = none → w1.finalStatus = 200) :=
  RunLambda_relays_body_only (cloudConf 2) answersNotFound freshWriter exampleRequest oneIdle 0 []
    (exampleWorker 0 true) 404 "no such lambda" (by decide) rfl rfl rfl rfl


theorem httpError_status (w : ResponseWriter) (msg : String) (code : Nat)
    (hs : w.status = none) : (httpError w msg code).status = some code := by
  cases hw : w.writeErr <;>
    simp [httpError, ResponseWriter.Write, ResponseWriter.WriteHeader, hs, hw]

/-- C13: with one worker in the queue and a backend that cannot be reached,
`RunLambda` outside mock mode returns having answered the caller with the
response of `http.Error` for the one failed attempt, whose status is 502 Bad
Gateway; the worker is idle again and alone in the queue, the membership is
unchanged, and a following `RunLambda` call returns, having forwarded to the
address of that same worker and put it back in the queue. -/
theorem RunLambda_unreachable_backend (Conf : Config) (Do : Request → Upstream)
    (w : ResponseWriter) (r : Request) (pool : WorkerPool) (worker : Ptr) (wk : Worker)
    (err : String) (hmode : Conf.Platform ≠ "mock") (hq : pool.queue = [worker])
    (hd : pool.deref worker = some wk) (hs : w.status = none)
    (hfail : Do (rewriteRequest r wk.workerIp) = .failed err) :
    ∃ w1 pool1, pool.RunLambda Conf Do w r = .returned w1 pool1 ∧
      w1 = httpError w err StatusBadGateway ∧ w1.finalStatus = 502 ∧
      pool1.queue = [worker] ∧ pool1.workers = pool.workers ∧
      pool1.deref worker = some { wk with isIdle := true } ∧
      ∀ (Do2 : Request → Upstream) (w2 : ResponseWriter) (r2 : Request),
        ∃ w3 pool2, pool1.RunLambda Conf Do2 w2 r2 = .returned w3 pool2 ∧
          w3 = (forwardTask Do2 w2 r2 wk.workerIp).1 ∧
          pool2.queue = [worker] ∧ pool2.workers = pool.workers := by
  have hret := RunLambda_forward Conf Do w r pool worker [] wk hmode hq hd
  have hd1 := deref_runLambda_head pool worker [] wk hd
  refine ⟨_, _, hret, ?_, ?_, rfl, rfl, hd1, ?_⟩
  · rw [forwardTask_eq, hfail]
  · rw [forwardTask_eq, hfail]
    show (httpError w err StatusBadGateway).finalStatus = 502
    unfold ResponseWriter.finalStatus
    rw [httpError_status w err StatusBadGateway hs]
    rfl
  · intro Do2 w2 r2
    exact ⟨_, _, RunLambda_forward Conf Do2 w2 r2 _ worker [] _ hmode rfl hd1, rfl, rfl, rfl⟩

/-- C13 (witness): on `oneIdle` with no worker reachable, the caller gets 502 and
the error text, the pool is as before, and the next call is served by the same
worker. -/
theorem RunLambda_unreachable_backend_witness :
    oneIdle.RunLambda (cloudConf 2) unreachable freshWriter exampleRequest =
      .returned badGatewayWriter oneIdle ∧
    ∃ w1 pool1, oneIdle.RunLambda (cloudConf 2) unreachable freshWriter exampleRequest =
        .returned w1 pool1 ∧
      w1 = httpError freshWriter "connection refused" StatusBadGateway ∧ w1.finalStatus = 502 ∧
      pool1.queue = [0] ∧ pool1.workers = oneIdle.workers ∧
      pool1.deref 0 = some { exampleWorker 0 true with isIdle := true } ∧
      ∀ (Do2 : Request → Upstream) (w2 : ResponseWriter) (r2 : Request),
        ∃ w3 pool2, pool1.RunLambda (cloudConf 2) Do2 w2 r2 = .returned w3 pool2 ∧
          w3 = (forwardTask Do2 w2 r2 (exampleWorker 0 true).workerIp).1 ∧
          pool2.queue = [0] ∧ pool2.workers = oneIdle.workers :=
  ⟨by decide,
    RunLambda_unreachable_backend (cloudConf 2) unreachable freshWriter exampleRequest oneIdle 0
      (exampleWorker 0 true) "connection refused" (by decide) rfl rfl rfl rfl⟩


/-! ## ScaleDown on an idle member -/

theorem mapDelete_eq_self (m : List (String × Ptr)) (key : String)
    (h : key ∉ m.map Prod.fst) : mapDelete m key = m := by
  unfold mapDelete
  rw [List.filter_eq_self]
  intro e he
  simp only [ne_eq, decide_eq_true_eq]
  intro heq
  exact h (heq ▸ List.mem_map_of_mem Prod.fst he)

theorem mapDelete_eq_erase (m : List (String × Ptr)) (key : String) (value : Ptr)
    (hkeys : (m.map Prod.fst).Nodup) (hm : (key, value) ∈ m) :
    mapDelete m key = m.erase (key, value) := by
  induction m with
  | nil => cases hm
  | cons e rest ih =>
    obtain ⟨k, v⟩ := e
    simp only [List.map_cons, List.nodup_cons] at hkeys
    by_cases hk : k = key
    · subst hk
      have hv : v = value := by
        simp only [List.mem_cons, Prod.mk.injEq] at hm
        rcases hm with ⟨_, h2⟩ | h2
        · exact h2.symm
        · exact absurd (List.mem_map_of_mem Prod.fst h2) hkeys.1
      subst hv
      have htail := mapDelete_eq_self rest k hkeys.1
      unfold mapDelete at htail ⊢
      rw [List.filter_cons_of_neg (by simp), List.erase_cons_head]
      exact htail
    · have hm1 : (key, value) ∈ rest := by
        simp only [List.mem_cons, Prod.mk.injEq] at hm
        rcases hm with ⟨h1, _⟩ | h2
        · exact absurd h1.symm hk
        · exact h2
      have hne : ¬ ((k, v) == (key, value)) = true := by
        simp [hk]
      rw [List.erase_cons_tail hne, ← ih hkeys.2 hm1]
      unfold mapDelete
      rw [List.filter_cons_of_pos (by simp [hk])]

/-- C17: for every pool whose queue has at its head an idle worker that the
membership map holds under its id, `ScaleDown` returns having removed exactly
that worker: the queue is left with the entries behind the head, in order; the
membership loses the entry of that worker and no other, so `Size` goes down by
exactly 1; and the one platform call made is `DeleteInstance` on that worker. -/
theorem ScaleDown_removes_idle_member (fuel : Nat) (pool : WorkerPool) (worker : Ptr)
    (rest : List Ptr) (wk : Worker) (hq : pool.queue = worker :: rest)
    (hd : pool.deref worker = some wk) (hi : wk.isIdle = true)
    (hm : (wk.workerId, worker) ∈ pool.workers) (hkeys : (pool.workers.map Prod.fst).Nodup) :
    ∃ pool1, pool.ScaleDown fuel = .returned () pool1 ∧
      pool1.queue = rest ∧
      pool1.workers = pool.workers.erase (wk.workerId, worker) ∧
      (wk.workerId, worker) ∉ pool1.workers ∧
      (∀ e ∈ pool.workers, e ≠ (wk.workerId, worker) → e ∈ pool1.workers) ∧
      (∀ e ∈ pool1.workers, e ∈ pool.workers) ∧
      pool1.Size = pool.Size - 1 ∧
      pool1.calls = pool.calls ++ [.deleteInstance worker] ∧
      pool1.heap = pool.heap ∧ pool1.nextId = pool.nextId := by
  have hw := mapDelete_eq_erase pool.workers wk.workerId worker hkeys hm
  have hnd : pool.workers.Nodup := List.Nodup.of_map Prod.fst hkeys
  refine ⟨_, ScaleDown_idle_head fuel pool worker rest wk hq hd hi, rfl, hw, ?_, ?_, ?_, ?_,
    rfl, rfl, rfl⟩
  · show (wk.workerId, worker) ∉ mapDelete pool.workers wk.workerId
    simp [mapDelete]
  · intro e he hne
    show e ∈ mapDelete pool.workers wk.workerId
    rw [hw]
    exact (List.mem_erase_of_ne hne).2 he
  · intro e he
    have he1 : e ∈ mapDelete pool.workers wk.workerId := he
    rw [hw] at he1
    exact List.mem_of_mem_erase he1
  · show ((mapDelete pool.workers wk.workerId).length : Int) = (pool.workers.length : Int) - 1
    rw [hw, List.length_erase_of_mem hm]
    have hpos : 0 < pool.workers.length := List.length_pos_of_mem hm
    omega

/-- C17 (witness): on `twoIdle`, `ScaleDown` removes worker 0 and leaves worker 1. -/
theorem ScaleDown_removes_idle_member_witness :
    twoIdle.ScaleDown 0 = .returned () twoIdleScaledDown ∧
    ∃ pool1, twoIdle.ScaleDown 0 = .returned () pool1 ∧
      pool1.queue = [1] ∧
      pool1.workers = twoIdle.workers.erase ((exampleWorker 0 true).workerId, 0) ∧
      ((exampleWorker 0 true).workerId, 0) ∉ pool1.workers ∧
      (∀ e ∈ twoIdle.workers, e ≠ ((exampleWorker 0 true).workerId, 0) → e ∈ pool1.workers) ∧
      (∀ e ∈ pool1.workers, e ∈ twoIdle.workers) ∧
      pool1.Size = twoIdle.Size - 1 ∧
      pool1.calls = twoIdle.calls ++ [.deleteInstance 0] ∧
      pool1.heap = twoIdle.heap ∧ pool1.nextId = twoIdle.nextId :=
  ⟨by decide,
    ScaleDown_removes_idle_member 0 twoIdle 0 [1] (exampleWorker 0 true) rfl rfl rfl
      (by decide) (by decide)⟩


/-! ## Status -/

theorem statusLoop_returns (pool : WorkerPool) (entries : List (String × Ptr))
    (hvalid : ∀ e ∈ entries, ∃ wk, pool.deref e.2 = some wk) :
    ∀ acc : List (List (String × String)),
      ∃ outs, pool.statusLoop entries acc = .returned (acc ++ outs) pool ∧
        List.Forall₂
          (fun e o => ∃ wk, pool.deref e.2 = some wk ∧
            o = [(e.1, if wk.isIdle then "idle" else "busy")])
          entries outs := by
  induction entries with
  | nil =>
    intro acc
    exact ⟨[], by simp [WorkerPool.statusLoop], List.Forall₂.nil⟩
  | cons e rest ih =>
    intro acc
    obtain ⟨workerId, worker⟩ := e
    obtain ⟨wk, hd⟩ := hvalid (workerId, worker) (List.mem_cons_self _ _)
    have hd0 : pool.deref worker = some wk := hd
    obtain ⟨outs, hret, hall⟩ :=
      ih (fun e he => hvalid e (List.mem_cons_of_mem _ he))
        (acc ++ [if wk.isIdle then [(workerId, "idle")] else [(workerId, "busy")]])
    refine ⟨(if wk.isIdle then [(workerId, "idle")] else [(workerId, "busy")]) :: outs, ?_, ?_⟩
    · simp only [WorkerPool.statusLoop, hd0]
      rw [hret]
      simp
    · refine List.Forall₂.cons ⟨wk, hd0, ?_⟩ hall
      cases wk.isIdle <;> simp

theorem forall₂_status_keys (pool : WorkerPool) (entries : List (String × Ptr))
    (outs : List (List (String × String)))
    (h : List.Forall₂
      (fun e o => ∃ wk, pool.deref e.2 = some wk ∧
        o = [(e.1, if wk.isIdle then "idle" else "busy")])
      entries outs) :
    outs.map (fun o => o.map Prod.fst) = entries.map (fun e => [e.1]) := by
  induction h with
  | nil => rfl
  | cons hhead _ ih =>
    obtain ⟨wk, _, ho⟩ := hhead
    simp [ho, ih]

theorem count_singleton_key (entries : List (String × Ptr)) (key : String) :
    (entries.map (fun e => [e.1])).count [key] = (entries.map Prod.fst).count key := by
  induction entries with
  | nil => rfl
  | cons e rest ih =>
    by_cases h : e.1 = key
    · simp [List.count_cons, ih, h]
    · simp [List.count_cons, ih, h]

/-- C15: for every pool whose membership is a map (no id twice) to workers,
`Status` returns the pool unchanged and a sequence with one entry for each entry
of the membership, so of length `Size`; the entry for the member registered under
`id` is the one-key mapping from `id` to "idle" when the idle flag of that worker
is set and to "busy" otherwise; and every member id is the key of exactly one
entry of the sequence. -/
theorem Status_lists_each_member (pool : WorkerPool)
    (hvalid : ∀ e ∈ pool.workers, ∃ wk, pool.deref e.2 = some wk)
    (hkeys : (pool.workers.map Prod.fst).Nodup) :
    ∃ out, pool.Status = .returned out pool ∧
      (out.length : Int) = pool.Size ∧
      List.Forall₂
        (fun e o => ∃ wk, pool.deref e.2 = some wk ∧
          o = [(e.1, if wk.isIdle then "idle" else "busy")])
        pool.workers out ∧
      (∀ e ∈ pool.workers, (out.map (fun o => o.map Prod.fst)).count [e.1] = 1) ∧
      (∀ o ∈ out, ∃ e ∈ pool.workers, o.map Prod.fst = [e.1]) := by
  obtain ⟨outs, hret, hall⟩ := statusLoop_returns pool pool.workers hvalid []
  have hkeysEq := forall₂_status_keys pool pool.workers outs hall
  refine ⟨outs, by simpa [WorkerPool.Status] using hret, ?_, hall, ?_, ?_⟩
  · simp [WorkerPool.Size, hall.length_eq]
  · intro e he
    rw [hkeysEq, count_singleton_key]
    exact List.count_eq_one_of_mem hkeys (List.mem_map_of_mem Prod.fst he)
  · intro o ho
    have ho1 : o.map Prod.fst ∈ outs.map (fun o => o.map Prod.fst) :=
      List.mem_map_of_mem (fun o => o.map Prod.fst) ho
    rw [hkeysEq, List.mem_map] at ho1
    obtain ⟨e, he, heq⟩ := ho1
    exact ⟨e, he, heq.symm⟩

/-- C15 (witness): on the pool `busyHead`, `Status` returns "busy" for worker 0
and "idle" for worker 1 and leaves the pool as it was. -/
theorem Status_lists_each_member_witness :
    busyHead.Status =
      .returned [[("worker-0", "busy")], [("worker-1", "idle")]] busyHead ∧
    ∃ out, busyHead.Status = .returned out busyHead ∧
      (out.length : Int) = busyHead.Size ∧
      List.Forall₂
        (fun e o => ∃ wk, busyHead.deref e.2 = some wk ∧
          o = [(e.1, if wk.isIdle then "idle" else "busy")])
        busyHead.workers out ∧
      (∀ e ∈ busyHead.workers, (out.map (fun o => o.map Prod.fst)).count [e.1] = 1) ∧
      (∀ o ∈ out, ∃ e ∈ busyHead.workers, o.map Prod.fst = [e.1]) :=
  ⟨by decide,
    Status_lists_each_member busyHead
      (by
        intro e he
        have hcases : e = ("worker-0", 0) ∨ e = ("worker-1", 1) := by
          simpa [busyHead, twoIdle] using he
        rcases hcases with h | h <;> subst h <;> exact ⟨_, rfl⟩)
      (by decide)⟩


/-! ## A successful ScaleUp -/

theorem wrapInt_succ (x : Int) (hlo : -2 ^ 63 ≤ x) (hhi : x < 2 ^ 63 - 1) :
    wrapInt (x + 1) = x + 1 := by
  unfold wrapInt
  omega

theorem mapGet_mapSet_self (m : List (String × Ptr)) (key : String) (value : Ptr) :
    mapGet (mapSet m key value) key = some value := by
  induction m with
  | nil => simp [mapSet, mapGet]
  | cons e rest ih =>
    obtain ⟨k, v⟩ := e
    by_cases h : k = key
    · simp [mapSet, mapGet, h]
    · unfold mapGet at ih
      simp [mapSet, mapGet, h, List.find?_cons, ih]

theorem mapGet_mapSet_of_ne (m : List (String × Ptr)) (key other : String) (value : Ptr)
    (hne : other ≠ key) : mapGet (mapSet m key value) other = mapGet m other := by
  induction m with
  | nil =>
    have : ¬ key = other := fun h => hne h.symm
    simp [mapSet, mapGet, this]
  | cons e rest ih =>
    obtain ⟨k, v⟩ := e
    unfold mapGet at ih
    by_cases h : k = key
    · subst h
      have : ¬ k = other := fun h => hne h.symm
      simp [mapSet, mapGet, List.find?_cons, this]
    · by_cases h2 : k = other
      · subst h2
        simp [mapSet, mapGet, h, List.find?_cons]
      · simp [mapSet, mapGet, h, List.find?_cons, h2, ih]

theorem mapSet_fresh (m : List (String × Ptr)) (key : String) (value : Ptr)
    (h : key ∉ m.map Prod.fst) : mapSet m key value = m ++ [(key, value)] := by
  induction m with
  | nil => rfl
  | cons e rest ih =>
    obtain ⟨k, v⟩ := e
    simp only [List.map_cons, List.mem_cons, not_or] at h
    have hk : ¬ k = key := fun e => h.1 e.symm
    simp [mapSet, hk, ih h.2]

theorem mem_mapSet (m : List (String × Ptr)) (key : String) (value : Ptr) (e : String × Ptr)
    (he : e ∈ mapSet m key value) : e ∈ m ∨ e = (key, value) := by
  induction m with
  | nil =>
    simp only [mapSet, List.mem_singleton] at he
    exact Or.inr he
  | cons e1 rest ih =>
    obtain ⟨k, v⟩ := e1
    by_cases h : k = key
    · simp only [mapSet, h, if_true, List.mem_cons] at he
      rcases he with he | he
      · exact Or.inr he
      · exact Or.inl (List.mem_cons_of_mem _ he)
    · simp only [mapSet, h, if_false, List.mem_cons] at he
      rcases he with he | he
      · subst he
        exact Or.inl (List.mem_cons_self _ _)
      · rcases ih he with h1 | h1
        · exact Or.inl (List.mem_cons_of_mem _ h1)
        · exact Or.inr h1


/-- C16 (counterexample): two pools on which `ScaleUp` returns without doing what
the claim says. On a pool whose counter is at `2 ^ 63 - 1`, the counter after the
call is `-2 ^ 63`, below the old value and not the old value plus 1. On a pool
with a member registered under the id that `NewWorker` returns again, the entry
of that member is overwritten: worker 0 is a member before the call and is not
one after it, and `Size` has not grown. -/
theorem ScaleUp_wraps_counter_and_overwrites :
    (counterAtMax.ScaleUp (mockConf 2) idlePlatform = .returned none counterWrapped ∧
      counterWrapped.nextId ≠ counterAtMax.nextId + 1 ∧
      counterWrapped.nextId < counterAtMax.nextId) ∧
    (sameIdOne.ScaleUp (mockConf 2) sameIdPlatform = .returned none sameIdTwo ∧
      sameIdOne.isMember 0 ∧ ¬ sameIdTwo.isMember 0 ∧ sameIdTwo.Size = sameIdOne.Size) := by
  decide

/-- C16 (amended): for every pool on which `ScaleUp` succeeds (the membership
size is at most the cap), it returns `nil` having done the following. The
counter is incremented in `int` arithmetic: by exactly 1 when it is below
`2 ^ 63 - 1`. `NewWorker` is called with the old counter value and
`CreateInstance` is started on the worker it returned. That worker is registered
in the membership under its id, overwriting an entry already under that id; the
lookups of all other ids and the entries under them are unchanged, and when the
id is new the membership is the old one with the new entry added. The worker is
appended to the tail of the queue, whose length grows by exactly 1 with the
existing entries and their order unchanged. The existing worker structs are
unchanged. -/
theorem ScaleUp_success_effect (Conf : Config) (platform : WorkerPoolPlatform)
    (pool : WorkerPool) (hs : pool.Size ≤ Conf.Worker_Cap) :
    ∃ pool1, pool.ScaleUp Conf platform = .returned none pool1 ∧
      pool1.nextId = wrapInt (pool.nextId + 1) ∧
      (-2 ^ 63 ≤ pool.nextId → pool.nextId < 2 ^ 63 - 1 → pool1.nextId = pool.nextId + 1) ∧
      pool1.calls =
        pool.calls ++ [.newWorker pool.nextId, .createInstance pool.heap.length] ∧
      pool1.deref pool.heap.length = some (platform.NewWorker pool.nextId) ∧
      (∀ worker wk, pool.deref worker = some wk → pool1.deref worker = some wk) ∧
      mapGet pool1.workers (platform.NewWorker pool.nextId).workerId = some pool.heap.length ∧
      (∀ key, key ≠ (platform.NewWorker pool.nextId).workerId →
        mapGet pool1.workers key = mapGet pool.workers key) ∧
      (∀ e ∈ pool.workers, e.1 ≠ (platform.NewWorker pool.nextId).workerId →
        e ∈ pool1.workers) ∧
      ((platform.NewWorker pool.nextId).workerId ∉ pool.workers.map Prod.fst →
        pool1.workers =
          pool.workers ++ [((platform.NewWorker pool.nextId).workerId, pool.heap.length)]) ∧
      pool1.queue = pool.queue ++ [pool.heap.length] ∧
      pool1.queue.length = pool.queue.length + 1 := by
  have hnot : ¬ pool.Size > Conf.Worker_Cap := not_lt.mpr hs
  have hret : pool.ScaleUp Conf platform =
      .returned none
        { nextId := wrapInt (pool.nextId + 1)
          workers := mapSet pool.workers (platform.NewWorker pool.nextId).workerId
            pool.heap.length
          queue := pool.queue ++ [pool.heap.length]
          heap := pool.heap ++ [platform.NewWorker pool.nextId]
          calls := pool.calls ++ [.newWorker pool.nextId, .createInstance pool.heap.length] } := by
    simp only [WorkerPool.ScaleUp, hnot, if_false]
  refine ⟨_, hret, rfl, ?_, rfl, ?_, ?_, ?_, ?_, ?_, ?_, rfl, ?_⟩
  · intro hlo hhi
    exact wrapInt_succ pool.nextId hlo hhi
  · simp [WorkerPool.deref]
  · intro worker wk hd
    have hlt := deref_lt pool worker wk hd
    simp only [WorkerPool.deref] at hd ⊢
    rw [List.getElem?_append_left hlt]
    exact hd
  · exact mapGet_mapSet_self _ _ _
  · intro key hne
    exact mapGet_mapSet_of_ne _ _ _ _ hne
  · intro e he hne
    exact mem_mapSet_of_ne _ _ _ e.1 e.2 he hne
  · intro hfresh
    exact mapSet_fresh _ _ _ hfresh
  · simp

/-- C16 (witness): on `twoIdle` with the cap at 2, `ScaleUp` succeeds and leaves
`threeIdle`. -/
theorem ScaleUp_success_effect_witness :
    twoIdle.Size ≤ (mockConf 2).Worker_Cap ∧
    twoIdle.ScaleUp (mockConf 2) idlePlatform = .returned none threeIdle ∧
    ∃ pool1, twoIdle.ScaleUp (mockConf 2) idlePlatform = .returned none pool1 ∧
      pool1.nextId = wrapInt (twoIdle.nextId + 1) ∧
      (-2 ^ 63 ≤ twoIdle.nextId → twoIdle.nextId < 2 ^ 63 - 1 →
        pool1.nextId = twoIdle.nextId + 1) ∧
      pool1.calls =
        twoIdle.calls ++ [.newWorker twoIdle.nextId, .createInstance twoIdle.heap.length] ∧
      pool1.deref twoIdle.heap.length = some (idlePlatform.NewWorker twoIdle.nextId) ∧
      (∀ worker wk, twoIdle.deref worker = some wk → pool1.deref worker = some wk) ∧
      mapGet pool1.workers (idlePlatform.NewWorker twoIdle.nextId).workerId =
        some twoIdle.heap.length ∧
      (∀ key, key ≠ (idlePlatform.NewWorker twoIdle.nextId).workerId →
        mapGet pool1.workers key = mapGet twoIdle.workers key) ∧
      (∀ e ∈ twoIdle.workers, e.1 ≠ (idlePlatform.NewWorker twoIdle.nextId).workerId →
        e ∈ pool1.workers) ∧
      ((idlePlatform.NewWorker twoIdle.nextId).workerId ∉ twoIdle.workers.map Prod.fst →
        pool1.workers =
          twoIdle.workers ++
            [((idlePlatform.NewWorker twoIdle.nextId).workerId, twoIdle.heap.length)]) ∧
      pool1.queue = twoIdle.queue ++ [twoIdle.heap.length] ∧
      pool1.queue.length = twoIdle.queue.length + 1 :=
  ⟨by decide, by decide,
    ScaleUp_success_effect (mockConf 2) idlePlatform twoIdle (by decide)⟩


/-! ## Consecutive dispatches -/

theorem runLambdas_rotates (Conf : Config) (Do : Request → Upstream)
    (reqs : List (ResponseWriter × Request)) :
    ∀ pool : WorkerPool, (∀ worker ∈ pool.queue, ∃ wk, pool.deref worker = some wk) →
      reqs.length ≤ pool.queue.length →
      (Conf.Platform = "mock" → ∀ q ∈ reqs, q.1.writeErr = none) →
      ∃ pool1, runLambdas Conf Do reqs pool = some (pool.queue.take reqs.length, pool1) ∧
        pool1.queue = pool.queue.rotate reqs.length ∧
        pool1.workers = pool.workers ∧ pool1.nextId = pool.nextId ∧
        pool1.calls = pool.calls := by
  induction reqs with
  | nil =>
    intro pool _ _ _
    exact ⟨pool, by simp [runLambdas], by simp, rfl, rfl, rfl⟩
  | cons q reqs ih =>
    intro pool hvalid hlen hout
    obtain ⟨w, r⟩ := q
    cases hq : pool.queue with
    | nil => simp [hq] at hlen
    | cons worker rest =>
      obtain ⟨wk, hd⟩ := hvalid worker (by rw [hq]; exact List.mem_cons_self _ _)
      have hw : Conf.Platform = "mock" → w.writeErr = none :=
        fun hm => hout hm (w, r) (List.mem_cons_self _ _)
      obtain ⟨w1, pool1, hret⟩ := RunLambda_returns Conf Do w r pool worker rest wk hq hd hw
      obtain ⟨worker', rest', wk', hq', hd', hp⟩ :=
        RunLambda_returned Conf Do w w1 r pool pool1 hret
      rw [hq] at hq'
      cases hq'
      rw [hd] at hd'
      cases hd'
      have hq1 : pool1.queue = rest ++ [worker] := by rw [hp]
      have hvalid1 : ∀ other ∈ pool1.queue, ∃ wk1, pool1.deref other = some wk1 := by
        intro other ho
        rw [hq1] at ho
        by_cases hne : worker = other
        · subst hne
          exact ⟨_, by rw [hp]; exact deref_runLambda_head pool worker rest wk hd⟩
        · have ho1 : other ∈ pool.queue := by
            rw [hq]
            simp only [List.mem_append, List.mem_singleton] at ho
            rcases ho with ho | ho
            · exact List.mem_cons_of_mem _ ho
            · exact absurd ho.symm hne
          obtain ⟨wk1, hd1⟩ := hvalid other ho1
          exact ⟨wk1, by rw [hp, deref_runLambda_other pool worker other rest hne]; exact hd1⟩
      have hlen1 : reqs.length ≤ pool1.queue.length := by
        rw [hq1]
        simp only [hq, List.length_cons] at hlen
        simp only [List.length_append, List.length_singleton]
        omega
      have hlenr : reqs.length ≤ rest.length := by
        simp only [hq, List.length_cons] at hlen
        omega
      obtain ⟨pool2, hrun, hq2, hw2, hn2, hc2⟩ :=
        ih pool1 hvalid1 hlen1 (fun hm q hq => hout hm q (List.mem_cons_of_mem _ hq))
      refine ⟨pool2, ?_, ?_, ?_, ?_, ?_⟩
      · simp only [runLambdas, hret, hrun, hq, hq1]
        simp [List.take_append_of_le_length hlenr]
      · rw [hq2, hq1, List.length_cons, List.rotate_cons_succ]
      · rw [hw2, hp]; rfl
      · rw [hn2, hp]; rfl
      · rw [hc2, hp]; rfl

/-- C19: for every pool whose queue holds `n` workers (`n ≥ 1`), `k ≤ n` consecutive
`RunLambda` calls (none of them a mock acknowledgement whose write fails) all
return; the workers they receive are the first `k` of the queue, in queue order,
and the queue they leave is the old one rotated by `k`: each call has moved the
head to the tail and left the order of the others as it was. The membership, the
id counter and the record of platform calls are unchanged. So `n` consecutive
calls serve each queued worker exactly once, in queue order, and restore the
queue. -/
theorem RunLambda_round_robin (Conf : Config) (Do : Request → Upstream)
    (reqs : List (ResponseWriter × Request)) (pool : WorkerPool)
    (hvalid : ∀ worker ∈ pool.queue, ∃ wk, pool.deref worker = some wk)
    (hlen : reqs.length ≤ pool.queue.length)
    (hout : Conf.Platform = "mock" → ∀ q ∈ reqs, q.1.writeErr = none) :
    ∃ pool1, runLambdas Conf Do reqs pool = some (pool.queue.take reqs.length, pool1) ∧
      pool1.queue = pool.queue.rotate reqs.length ∧
      pool1.workers = pool.workers ∧ pool1.nextId = pool.nextId ∧
      pool1.calls = pool.calls ∧
      (reqs.length = 1 → ∀ worker rest, pool.queue = worker :: rest →
        pool1.queue = rest ++ [worker]) ∧
      (reqs.length = pool.queue.length →
        runLambdas Conf Do reqs pool = some (pool.queue, pool1) ∧ pool1.queue = pool.queue) := by
  obtain ⟨pool1, hrun, hq1, hw1, hn1, hc1⟩ := runLambdas_rotates Conf Do reqs pool hvalid hlen hout
  refine ⟨pool1, hrun, hq1, hw1, hn1, hc1, ?_, ?_⟩
  · intro h1 worker rest hq
    rw [hq1, h1, hq]
    simp [List.rotate_cons_succ]
  · intro hn
    constructor
    · rw [hrun, hn, List.take_length]
    · rw [hq1, hn, List.rotate_length]

/-- C19 (witness): on `twoIdle`, two consecutive calls of `RunLambda` serve worker 0
and then worker 1 and leave the queue as it was. -/
theorem RunLambda_round_robin_witness :
    runLambdas (mockConf 2) unreachable
      [(freshWriter, exampleRequest), (freshWriter, exampleRequest)] twoIdle =
        some ([0, 1], twoIdle) ∧
    ∃ pool1,
      runLambdas (mockConf 2) unreachable
        [(freshWriter, exampleRequest), (freshWriter, exampleRequest)] twoIdle =
          some (twoIdle.queue.take
            [(freshWriter, exampleRequest), (freshWriter, exampleRequest)].length, pool1) ∧
      pool1.queue = twoIdle.queue.rotate
        [(freshWriter, exampleRequest), (freshWriter, exampleRequest)].length ∧
      pool1.workers = twoIdle.workers ∧ pool1.nextId = twoIdle.nextId ∧
      pool1.calls = twoIdle.calls ∧
      ([(freshWriter, exampleRequest), (freshWriter, exampleRequest)].length = 1 →
        ∀ worker rest, twoIdle.queue = worker :: rest → pool1.queue = rest ++ [worker]) ∧
      ([(freshWriter, exampleRequest), (freshWriter, exampleRequest)].length =
          twoIdle.queue.length →
        runLambdas (mockConf 2) unreachable
          [(freshWriter, exampleRequest), (freshWriter, exampleRequest)] twoIdle =
            some (twoIdle.queue, pool1) ∧ pool1.queue = twoIdle.queue) :=
  ⟨by decide,
    RunLambda_round_robin (mockConf 2) unreachable
      [(freshWriter, exampleRequest), (freshWriter, exampleRequest)] twoIdle
      (by
        intro worker hw
        have hcases : worker = 0 ∨ worker = 1 := by simpa [twoIdle] using hw
        rcases hcases with h | h <;> subst h <;> exact ⟨_, rfl⟩)
      (by decide) (by intro _ q hq; simp at hq; subst hq; rfl)⟩


/-! ## The id counter -/

theorem newWorkerIds_append (a b : List PlatformCall) :
    newWorkerIds (a ++ b) = newWorkerIds a ++ newWorkerIds b := by
  induction a with
  | nil => rfl
  | cons c rest ih =>
    cases c <;> simp [newWorkerIds, ih]

theorem newWorkerIds_deleteInstance (entries : List (String × Ptr)) :
    newWorkerIds (entries.map (fun e => PlatformCall.deleteInstance e.2)) = [] := by
  induction entries with
  | nil => rfl
  | cons e rest ih => simp [newWorkerIds, ih]

theorem scaleDownLoop_nextId (fuel : Nat) (worker : Ptr) (pool : WorkerPool) :
    (WorkerPool.scaleDownLoop fuel worker pool).pool.nextId = pool.nextId := by
  cases hd : pool.deref worker with
  | none => cases fuel <;> simp [WorkerPool.scaleDownLoop, hd, Outcome.pool]
  | some wk =>
    cases hi : wk.isIdle with
    | true => rw [scaleDownLoop_idle fuel worker wk pool hd hi]; rfl
    | false => rw [scaleDownLoop_busy fuel worker wk pool hd hi]; rfl

theorem ScaleDown_nextId (fuel : Nat) (pool : WorkerPool) :
    (pool.ScaleDown fuel).pool.nextId = pool.nextId := by
  unfold WorkerPool.ScaleDown
  cases pool.queue with
  | nil => rfl
  | cons worker rest => exact scaleDownLoop_nextId fuel worker _

theorem RunLambda_nextId (Conf : Config) (Do : Request → Upstream) (w : ResponseWriter)
    (r : Request) (pool : WorkerPool) :
    (pool.RunLambda Conf Do w r).pool.nextId = pool.nextId := by
  unfold WorkerPool.RunLambda
  cases pool.queue with
  | nil => rfl
  | cons worker rest =>
    simp only
    cases ({ pool with queue := rest } : WorkerPool).deref worker with
    | none => rfl
    | some wk =>
      simp only
      split
      · split <;> rfl
      · rfl

theorem statusLoop_nextId (pool : WorkerPool) (entries : List (String × Ptr)) :
    ∀ acc, (pool.statusLoop entries acc).pool.nextId = pool.nextId := by
  induction entries with
  | nil => intro acc; rfl
  | cons e rest ih =>
    intro acc
    obtain ⟨workerId, worker⟩ := e
    unfold WorkerPool.statusLoop
    cases pool.deref worker with
    | none => rfl
    | some wk => exact ih _

theorem Close_nextId (pool : WorkerPool) : pool.Close.pool.nextId = pool.nextId :=
  (closeLoop_fields pool.workers pool).2.2.2.2


theorem counter_applyOp (fuel : Nat) (Conf : Config) (platform : WorkerPoolPlatform) (op : Op)
    (pool pool1 : WorkerPool) (lower : Int)
    (hsorted : List.Pairwise (· < ·) (newWorkerIds pool.calls))
    (hbelow : ∀ id ∈ newWorkerIds pool.calls, lower ≤ id ∧ id < pool.nextId)
    (hlow : lower ≤ pool.nextId)
    (hlo : -2 ^ 63 ≤ pool.nextId) (hhi : pool.nextId < 2 ^ 63 - 1)
    (h : applyOp fuel Conf platform op pool = some pool1) :
    List.Pairwise (· < ·) (newWorkerIds pool1.calls) ∧
    (∀ id ∈ newWorkerIds pool1.calls, lower ≤ id ∧ id < pool1.nextId) ∧
    pool.nextId ≤ pool1.nextId ∧ pool1.nextId ≤ pool.nextId + 1 := by
  cases op with
  | scaleUp =>
    have hp := applyOp_scaleUp fuel Conf platform pool pool1 h
    subst hp
    have hnext := wrapInt_succ pool.nextId hlo hhi
    have hids : newWorkerIds
        (pool.calls ++ [.newWorker pool.nextId, .createInstance pool.heap.length]) =
        newWorkerIds pool.calls ++ [pool.nextId] := by
      rw [newWorkerIds_append]; rfl
    refine ⟨?_, ?_, ?_, ?_⟩
    · show List.Pairwise (· < ·) (newWorkerIds
        (pool.calls ++ [.newWorker pool.nextId, .createInstance pool.heap.length]))
      rw [hids, List.pairwise_append]
      refine ⟨hsorted, List.pairwise_singleton _ _, ?_⟩
      intro a ha b hb
      rw [List.mem_singleton] at hb
      rw [hb]
      exact (hbelow a ha).2
    · intro id hid
      have hid1 : id ∈ newWorkerIds pool.calls ++ [pool.nextId] := by rw [← hids]; exact hid
      show lower ≤ id ∧ id < wrapInt (pool.nextId + 1)
      rw [hnext]
      simp only [List.mem_append, List.mem_singleton] at hid1
      rcases hid1 with h1 | h1
      · have := hbelow id h1
        omega
      · omega
    · show pool.nextId ≤ wrapInt (pool.nextId + 1)
      rw [hnext]; omega
    · show wrapInt (pool.nextId + 1) ≤ pool.nextId + 1
      rw [hnext]
  | scaleDown =>
    obtain ⟨worker, rest, wk, _, _, _, _, _, _, hcalls⟩ :=
      applyOp_scaleDown fuel Conf platform pool pool1 h
    have hn : pool1.nextId = pool.nextId := by
      have hall := ScaleDown_nextId fuel pool
      simp only [applyOp] at h
      split at h
      · rename_i v p hret
        cases h
        rw [hret] at hall
        exact hall
      · cases h
    have hids : newWorkerIds pool1.calls = newWorkerIds pool.calls := by
      rw [hcalls, newWorkerIds_append]; simp [newWorkerIds]
    rw [hids, hn]
    exact ⟨hsorted, hbelow, le_refl _, by omega⟩
  | runLambda Do w r =>
    obtain ⟨worker, rest, wk, _, _, hp⟩ := applyOp_runLambda fuel Conf platform Do w r pool pool1 h
    subst hp
    exact ⟨hsorted, hbelow, le_refl _, by show pool.nextId ≤ pool.nextId + 1; omega⟩
  | status =>
    have hp := applyOp_status fuel Conf platform pool pool1 h
    subst hp
    exact ⟨hsorted, hbelow, le_refl _, by omega⟩
  | close =>
    have hp := applyOp_close fuel Conf platform pool pool1 h
    subst hp
    obtain ⟨_, h2, _, _, h5⟩ := closeLoop_fields pool.workers pool
    have hids : newWorkerIds (WorkerPool.closeLoop pool.workers pool).calls =
        newWorkerIds pool.calls := by
      rw [h2, newWorkerIds_append, newWorkerIds_deleteInstance, List.append_nil]
    rw [hids, h5]
    exact ⟨hsorted, hbelow, le_refl _, by omega⟩

theorem counter_runOps (fuel : Nat) (Conf : Config) (platform : WorkerPoolPlatform)
    (lower : Int) (ops : List Op) :
    ∀ pool pool1 : WorkerPool,
      List.Pairwise (· < ·) (newWorkerIds pool.calls) →
      (∀ id ∈ newWorkerIds pool.calls, lower ≤ id ∧ id < pool.nextId) →
      lower ≤ pool.nextId → -2 ^ 63 ≤ pool.nextId → pool.nextId + ops.length < 2 ^ 63 →
      runOps fuel Conf platform ops pool = some pool1 →
      List.Pairwise (· < ·) (newWorkerIds pool1.calls) ∧
      (∀ id ∈ newWorkerIds pool1.calls, lower ≤ id ∧ id < pool1.nextId) := by
  induction ops with
  | nil =>
    intro pool pool1 hsorted hbelow _ _ _ h
    simp only [runOps, Option.some.injEq] at h
    subst h
    exact ⟨hsorted, hbelow⟩
  | cons op ops ih =>
    intro pool pool1 hsorted hbelow hlow hlo hhi h
    simp only [runOps] at h
    simp only [List.length_cons, Nat.cast_add, Nat.cast_one] at hhi
    cases hop : applyOp fuel Conf platform op pool with
    | none => simp [hop] at h
    | some pool2 =>
      simp only [hop] at h
      obtain ⟨hs2, hb2, hge, hle⟩ := counter_applyOp fuel Conf platform op pool pool2 lower
        hsorted hbelow hlow hlo (by omega) hop
      exact ih pool2 pool1 hs2 hb2 (by omega) (by omega) (by omega) h

/-- C11 (counterexample): on a pool whose counter is at `2 ^ 63 - 1`, two calls of
`ScaleUp` return; the first passes `2 ^ 63 - 1` to `NewWorker` and the second
passes `-2 ^ 63`, which is not greater. -/
theorem counter_wraps_at_max :
    runOps 0 (mockConf 2) idlePlatform [.scaleUp, .scaleUp] counterAtMax =
      some counterWrappedTwice ∧
    newWorkerIds counterWrappedTwice.calls = [2 ^ 63 - 1, -2 ^ 63] ∧
    ¬ ((2 : Int) ^ 63 - 1 < -2 ^ 63) := by
  decide

/-- C11 (amended): in a run of calls that starts on the empty pool with the
counter at `firstId` and is too short for the counter to reach `2 ^ 63`, the
counters passed to `NewWorker` by the successful `ScaleUp` calls are strictly
increasing in the order of the calls, each at least `firstId` and below the
current counter. And whatever the pool, `ScaleDown`, `RunLambda`, `Status`,
`Close` and a rejected `ScaleUp` leave the counter as it was, however they end. -/
theorem counter_increases_until_overflow (fuel : Nat) (Conf : Config)
    (platform : WorkerPoolPlatform) (firstId : Int) (ops : List Op) (pool : WorkerPool)
    (hlo : -2 ^ 63 ≤ firstId) (hhi : firstId + ops.length < 2 ^ 63)
    (hrun : runOps fuel Conf platform ops (emptyPool firstId) = some pool) :
    List.Pairwise (· < ·) (newWorkerIds pool.calls) ∧
    (∀ id ∈ newWorkerIds pool.calls, firstId ≤ id ∧ id < pool.nextId) ∧
    (∀ p : WorkerPool,
      (p.ScaleDown fuel).pool.nextId = p.nextId ∧
      (∀ Do w r, (p.RunLambda Conf Do w r).pool.nextId = p.nextId) ∧
      p.Status.pool.nextId = p.nextId ∧
      p.Close.pool.nextId = p.nextId ∧
      (p.Size > Conf.Worker_Cap → (p.ScaleUp Conf platform).pool.nextId = p.nextId)) := by
  obtain ⟨h1, h2⟩ := counter_runOps fuel Conf platform firstId ops (emptyPool firstId) pool
    (by simp [emptyPool, newWorkerIds]) (by simp [emptyPool, newWorkerIds])
    (le_refl _) hlo hhi hrun
  refine ⟨h1, h2, ?_⟩
  intro p
  refine ⟨ScaleDown_nextId fuel p, fun Do w r => RunLambda_nextId Conf Do w r p,
    statusLoop_nextId p p.workers [], Close_nextId p, ?_⟩
  intro hover
  simp [WorkerPool.ScaleUp, hover, Outcome.pool]

/-- C11 (witness): from the empty pool with the counter at 0, three calls of
`ScaleUp` pass 0, 1 and 2 to `NewWorker`. -/
theorem counter_increases_until_overflow_witness :
    runOps 0 (mockConf 2) idlePlatform [.scaleUp, .scaleUp, .scaleUp] (emptyPool 0) =
      some threeIdle ∧
    newWorkerIds threeIdle.calls = [0, 1, 2] ∧
    List.Pairwise (· < ·) (newWorkerIds threeIdle.calls) ∧
    (∀ id ∈ newWorkerIds threeIdle.calls, (0 : Int) ≤ id ∧ id < threeIdle.nextId) ∧
    (∀ p : WorkerPool,
      (p.ScaleDown 0).pool.nextId = p.nextId ∧
      (∀ Do w r, (p.RunLambda (mockConf 2) Do w r).pool.nextId = p.nextId) ∧
      p.Status.pool.nextId = p.nextId ∧
      p.Close.pool.nextId = p.nextId ∧
      (p.Size > (mockConf 2).Worker_Cap →
        (p.ScaleUp (mockConf 2) idlePlatform).pool.nextId = p.nextId)) :=
  ⟨by decide, by decide,
    counter_increases_until_overflow 0 (mockConf 2) idlePlatform 0
      [.scaleUp, .scaleUp, .scaleUp] threeIdle (by decide) (by decide) (by decide)⟩


/-! ## The queue and the membership hold the same workers -/

theorem mem_mapDelete (m : List (String × Ptr)) (key : String) (e : String × Ptr)
    (he : e ∈ mapDelete m key) : e ∈ m ∧ e.1 ≠ key := by
  simpa [mapDelete] using he

theorem members_applyOp (fuel : Nat) (Conf : Config) (platform : WorkerPoolPlatform)
    (op : Op) (hop : op.isClose = false) (pool pool1 : WorkerPool)
    (hids : pool1.ids.Nodup) (hinv : pool.membersQueued)
    (hkeys : (pool.workers.map Prod.fst).Nodup)
    (h : applyOp fuel Conf platform op pool = some pool1) :
    pool1.membersQueued ∧ (pool1.workers.map Prod.fst).Nodup := by
  cases op with
  | scaleUp =>
    have hp := applyOp_scaleUp fuel Conf platform pool pool1 h
    subst hp
    have hids1 : (pool.ids ++ [(platform.NewWorker pool.nextId).workerId]).Nodup := by
      simpa [WorkerPool.ids] using hids
    have hfresh : (platform.NewWorker pool.nextId).workerId ∉ pool.ids := by
      intro hmem
      exact (List.nodup_append.1 hids1).2.2 hmem (List.mem_singleton_self _)
    have hnotkey : (platform.NewWorker pool.nextId).workerId ∉ pool.workers.map Prod.fst := by
      intro hmem
      obtain ⟨e, he, hek⟩ := List.mem_map.1 hmem
      obtain ⟨_, wk, hd, hid⟩ := hinv e he
      apply hfresh
      rw [← hek, ← hid]
      exact List.mem_iff_getElem?.2 ⟨e.2, ids_getElem? pool e.2 wk hd⟩
    have hset := mapSet_fresh pool.workers _ pool.heap.length hnotkey
    constructor
    · intro e he
      have he1 : e ∈ mapSet pool.workers (platform.NewWorker pool.nextId).workerId
          pool.heap.length := he
      rcases mem_mapSet _ _ _ e he1 with hold | hnew
      · obtain ⟨hq, wk, hd, hid⟩ := hinv e hold
        have hlt := deref_lt pool e.2 wk hd
        refine ⟨List.mem_append_left _ hq, wk, ?_, hid⟩
        simp only [WorkerPool.deref] at hd ⊢
        rw [List.getElem?_append_left hlt]
        exact hd
      · subst hnew
        refine ⟨List.mem_append_right _ (List.mem_singleton_self _),
          platform.NewWorker pool.nextId, ?_, rfl⟩
        simp [WorkerPool.deref]
    · show (List.map Prod.fst (mapSet pool.workers (platform.NewWorker pool.nextId).workerId
        pool.heap.length)).Nodup
      rw [hset, List.map_append, List.nodup_append]
      refine ⟨hkeys, List.nodup_singleton _, ?_⟩
      intro a ha hb
      simp only [List.map_cons, List.map_nil, List.mem_singleton] at hb
      exact hnotkey (hb ▸ ha)
  | scaleDown =>
    obtain ⟨worker, rest, wk, hq, hd, _, hheap, hq1, hw1, _⟩ :=
      applyOp_scaleDown fuel Conf platform pool pool1 h
    constructor
    · intro e he
      rw [hw1] at he
      obtain ⟨hem, hne⟩ := mem_mapDelete _ _ e he
      obtain ⟨hqe, wke, hde, hid⟩ := hinv e hem
      have hptr : e.2 ≠ worker := by
        intro heq
        rw [heq, hd] at hde
        cases hde
        exact hne hid.symm
      refine ⟨?_, wke, ?_, hid⟩
      · rw [hq1]
        rw [hq] at hqe
        rcases List.mem_cons.1 hqe with h1 | h1
        · exact absurd h1 hptr
        · exact h1
      · simp only [WorkerPool.deref] at hde ⊢
        rw [hheap]
        exact hde
    · rw [hw1]
      exact (List.filter_sublist _).map Prod.fst |>.nodup hkeys
  | runLambda Do w r =>
    obtain ⟨worker, rest, wk, hq, hd, hp⟩ := applyOp_runLambda fuel Conf platform Do w r pool pool1 h
    subst hp
    refine ⟨?_, hkeys⟩
    intro e he
    obtain ⟨hqe, wke, hde, hid⟩ := hinv e he
    have hqe1 : e.2 ∈ rest ++ [worker] := by
      rw [hq] at hqe
      rcases List.mem_cons.1 hqe with h1 | h1
      · exact List.mem_append_right _ (h1 ▸ List.mem_singleton_self _)
      · exact List.mem_append_left _ h1
    refine ⟨hqe1, ?_⟩
    by_cases hne : worker = e.2
    · rw [← hne] at hde
      rw [hd] at hde
      cases hde
      exact ⟨{ wk with isIdle := true },
        by rw [← hne]; exact deref_runLambda_head pool worker rest wk hd, hid⟩
    · exact ⟨wke, by rw [deref_runLambda_other pool worker e.2 rest hne]; exact hde, hid⟩
  | status =>
    have hp := applyOp_status fuel Conf platform pool pool1 h
    subst hp
    exact ⟨hinv, hkeys⟩
  | close => cases hop

theorem members_runOps (fuel : Nat) (Conf : Config) (platform : WorkerPoolPlatform)
    (ops : List Op) :
    ∀ pool pool1 : WorkerPool, (∀ op ∈ ops, op.isClose = false) → pool1.ids.Nodup →
      pool.membersQueued → (pool.workers.map Prod.fst).Nodup →
      runOps fuel Conf platform ops pool = some pool1 →
      pool1.membersQueued ∧ (pool1.workers.map Prod.fst).Nodup := by
  induction ops with
  | nil =>
    intro pool pool1 _ _ hinv hkeys h
    simp only [runOps, Option.some.injEq] at h
    subst h
    exact ⟨hinv, hkeys⟩
  | cons op ops ih =>
    intro pool pool1 hops hids hinv hkeys h
    simp only [runOps] at h
    cases hop : applyOp fuel Conf platform op pool with
    | none => simp [hop] at h
    | some pool2 =>
      simp only [hop] at h
      obtain ⟨more, hmore⟩ := ids_runOps fuel Conf platform ops pool2 pool1 h
      have hids2 : pool2.ids.Nodup := by
        rw [hmore] at hids
        exact hids.of_append_left
      obtain ⟨hinv2, hkeys2⟩ := members_applyOp fuel Conf platform op
        (hops op (List.mem_cons_self _ _)) pool pool2 hids2 hinv hkeys hop
      exact ih pool2 pool1 (fun o ho => hops o (List.mem_cons_of_mem _ ho)) hids hinv2 hkeys2 h


/-- C20: when the workers that `NewWorker` has returned have pairwise distinct
ids, in every state reached from the empty pool by a sequence of returning
`ScaleUp`, `ScaleDown` and `RunLambda` calls (`Status` calls may be mixed in),
the idle queue holds each worker at most once and holds exactly the workers of
the membership map: a pointer is in the queue if and only if it is registered,
and the registered pointers are a rearrangement of the queue. The assumption on
the idle flag is not used: a `ScaleDown` that finds a busy head does not return. -/
theorem queue_is_membership (fuel : Nat) (Conf : Config) (platform : WorkerPoolPlatform)
    (firstId : Int) (ops : List Op) (pool : WorkerPool)
    (hops : ∀ op ∈ ops, op.isClose = false) (hids : pool.ids.Nodup)
    (hrun : runOps fuel Conf platform ops (emptyPool firstId) = some pool) :
    pool.queue.Nodup ∧ (∀ worker, worker ∈ pool.queue ↔ pool.isMember worker) ∧
      (pool.workers.map Prod.snd).Perm pool.queue := by
  have hreg0 : (emptyPool firstId).queueRegistered := by
    intro worker hw
    simp [emptyPool] at hw
  have hmem0 : (emptyPool firstId).membersQueued := by
    intro e he
    simp [emptyPool] at he
  obtain ⟨hnd, hreg⟩ := registered_runOps fuel Conf platform ops (emptyPool firstId) pool
    hops hids (by simp [emptyPool]) hreg0 hrun
  obtain ⟨hmem, hkeys⟩ := members_runOps fuel Conf platform ops (emptyPool firstId) pool
    hops hids hmem0 (by simp [emptyPool]) hrun
  have hiff : ∀ worker, worker ∈ pool.queue ↔ pool.isMember worker := by
    intro worker
    constructor
    · intro hw
      obtain ⟨wk, _, hm⟩ := hreg worker hw
      exact List.mem_map_of_mem Prod.snd hm
    · intro hm
      obtain ⟨e, he, heq⟩ := List.mem_map.1 hm
      rw [← heq]
      exact (hmem e he).1
  have hvals : (pool.workers.map Prod.snd).Nodup := by
    apply List.Nodup.map_on _ (List.Nodup.of_map Prod.fst hkeys)
    intro x hx y hy hxy
    obtain ⟨_, wx, hdx, hidx⟩ := hmem x hx
    obtain ⟨_, wy, hdy, hidy⟩ := hmem y hy
    rw [hxy, hdy] at hdx
    cases hdx
    exact Prod.ext (hidx.symm.trans hidy) hxy
  refine ⟨hnd, hiff, ?_⟩
  rw [List.perm_ext_iff_of_nodup hvals hnd]
  intro worker
  exact (hiff worker).symm

/-- C20 (witness): with `idlePlatform`, after `ScaleUp`, `ScaleUp`, `ScaleUp`,
`ScaleDown` and `RunLambda`, the queue is `[2, 1]` and the members are workers 1
and 2. -/
theorem queue_is_membership_witness :
    (∀ op ∈ ([.scaleUp, .scaleUp, .scaleUp, .scaleDown,
        .runLambda unreachable freshWriter exampleRequest] : List Op), op.isClose = false) ∧
    threeIdleScaledDownRotated.ids.Nodup ∧
    runOps 0 (mockConf 2) idlePlatform
      [.scaleUp, .scaleUp, .scaleUp, .scaleDown,
        .runLambda unreachable freshWriter exampleRequest] (emptyPool 0) =
      some threeIdleScaledDownRotated ∧
    (threeIdleScaledDownRotated.queue.Nodup ∧
      (∀ worker, worker ∈ threeIdleScaledDownRotated.queue ↔
        threeIdleScaledDownRotated.isMember worker) ∧
      (threeIdleScaledDownRotated.workers.map Prod.snd).Perm threeIdleScaledDownRotated.queue) :=
  ⟨by simp [Op.isClose], by decide, by decide,
    queue_is_membership 0 (mockConf 2) idlePlatform 0
      [.scaleUp, .scaleUp, .scaleUp, .scaleDown,
        .runLambda unreachable freshWriter exampleRequest]
      threeIdleScaledDownRotated (by simp [Op.isClose]) (by decide) (by decide)⟩

end Boss
